import Mathlib

/-!
Verification development for the Cosmian `anonymization-python` transformation
pipeline.  The Python sources (`anonymize.py`, `conversion_helper.py`,
`noise_parser.py`, `method_parser.py`, `noise_correlation.py`) are shallowly
embedded below: pandas DataFrames become association lists of named columns,
exceptions become `Except`/`Option`, and the external anonymization primitives
of `cloudproof` (hashing, FPE, noise application, ...) — which the spec
explicitly places out of scope — are abstracted as an oracle record `Prim`.
Numeric cell values are modelled as exact integers: machine floating-point
representation is out of scope, and none of the verified properties depend on
the numeric domain.
-/

set_option maxHeartbeats 1000000

namespace CosmianAnon

/-- A cell value of a dataset column.  pandas dtypes `string`, `int64` and
`float64` are modelled by the three constructors; `float` carries an exact
integer since machine floats are out of scope. -/
inductive Val where
  | str (s : String)
  | int (n : Int)
  | float (x : Int)
deriving DecidableEq, Repr

/-- A value appearing in a descriptor's `method_options` mapping: a JSON
string, a number, a `{precision, unit}` time-amount object (used by
`NoiseDate` options), or a list of words (used by `TokenizeWords` and
`MaskWords`). -/
inductive OptVal where
  | str (s : String)
  | num (q : Int)
  | timeAmount (precision : Int) (unit : String)
  | words (ws : List String)
deriving DecidableEq, Repr

/-- The errors raised by the pipeline.  Each constructor mirrors one `raise`
site (or Python call-protocol error) of the source; `Err.message` renders the
corresponding Python message text. -/
inductive Err where
  | missingColumn (col : String)
  | invalidType (ty : String)
  | conversionError (col ty : String)
  | unknownMethod (m : String)
  | missingArguments (func : String) (args : List String)
  | unexpectedArgument (func arg : String)
  | missingNoiseOptions
  | cannotCorrelate (m : String)
  | notSubscriptable
  | keyError (k : String)
  | shapeError
  | transformError (col : String) (line : Nat) (cause : String)
  | transformRowError (cols : List String) (line : Nat) (cause : String)
deriving DecidableEq, Repr

/-- Renders the list of missing keyword arguments of a `TypeError`
message (CPython additionally quotes each name). -/
def renderArgs : List String → String
  | [] => ""
  | a :: rest => a ++ " " ++ renderArgs rest

/-- The user-visible message of each error, following the corresponding
Python message text. -/
def Err.message : Err → String
  | .missingColumn col => "Missing column from data: " ++ col ++ "."
  | .invalidType ty => "Invalid type in config file: " ++ ty ++ "."
  | .conversionError col ty =>
      "The column `" ++ col ++ "` contains elements that could not be converted to "
        ++ ty ++ "."
  | .unknownMethod m => "Unknown method named: " ++ m ++ "."
  | .missingArguments func args =>
      func ++ "() missing required arguments: " ++ renderArgs args
  | .unexpectedArgument func arg =>
      func ++ "() got an unexpected keyword argument " ++ arg
  | .missingNoiseOptions => "Missing noise options."
  | .cannotCorrelate m => "Cannot apply correlation for method: " ++ m ++ "."
  | .notSubscriptable => "object is not subscriptable"
  | .keyError k => "KeyError: " ++ k
  | .shapeError => "Columns must be same length as key"
  | .transformError col line cause =>
      "Error processing `" ++ col ++ "` at line " ++ toString line ++ ":\n" ++ cause
  | .transformRowError cols line cause =>
      "Error processing `" ++ toString cols ++ "` at line " ++ toString line ++ ":\n" ++ cause

/-! ### Substring testing (used to state what an error message names) -/

/-- `startsWithChars needle hay` is true when `needle` is an initial segment
of `hay`. -/
def startsWithChars : List Char → List Char → Bool
  | [], _ => true
  | _ :: _, [] => false
  | a :: as, b :: bs => a = b && startsWithChars as bs

/-- `containsSub needle hay` is true when `needle` occurs contiguously
inside `hay`. -/
def containsSub (needle : List Char) : List Char → Bool
  | [] => startsWithChars needle []
  | hay@(_ :: rest) => startsWithChars needle hay || containsSub needle rest

/-- `strContains hay needle` : does the string `hay` contain `needle`? -/
def strContains (hay needle : String) : Bool :=
  containsSub needle.data hay.data

/-! ### DataFrame model

A pandas DataFrame is modelled as an ordered association list of named
columns; a column is a list of cell values.  `setCol` mirrors pandas column
assignment: it replaces an existing column in place, or appends a new column
at the end. -/

abbrev DataFrame := List (String × List Val)

/-- Look up a column by name (first match). -/
def getCol : DataFrame → String → Option (List Val)
  | [], _ => none
  | (k, v) :: rest, n => if k = n then some v else getCol rest n

/-- Python's `name in df` membership test (column names). -/
def hasCol (df : DataFrame) (n : String) : Bool :=
  (getCol df n).isSome

/-- The list of column names, in order. -/
def keys : DataFrame → List String
  | [] => []
  | (k, _) :: rest => k :: keys rest

/-- Column assignment `df[n] = v`: replace in place or append at the end. -/
def setCol : DataFrame → String → List Val → DataFrame
  | [], n, v => [(n, v)]
  | (k, w) :: rest, n, v =>
      if k = n then (k, v) :: rest else (k, w) :: setCol rest n v

/-- Failure-propagating map over a list (`Option`). -/
def optionMapList (f : α → Option β) : List α → Option (List β)
  | [] => some []
  | a :: rest =>
      match f a with
      | none => none
      | some b =>
          match optionMapList f rest with
          | none => none
          | some bs => some (b :: bs)

/-- Column projection `df[names]`: pandas raises `KeyError` when a requested
column is absent, and otherwise returns a fresh frame holding the requested
columns in the requested order. -/
def selectCols (df : DataFrame) (names : List String) : Option DataFrame :=
  optionMapList (fun n => (getCol df n).map (fun c => (n, c))) names

/-- The raw values of the requested columns, column-major. -/
def selectValues (df : DataFrame) (names : List String) : Option (List (List Val)) :=
  optionMapList (getCol df) names

/-- The row-major view `df[names].values` of a column-major table. -/
def rowsOf (cols : List (List Val)) : List (List Val) :=
  let n := (cols.head?.map List.length).getD 0
  (List.range n).map fun i => cols.map (fun c => c.getD i (Val.str ""))

/-- Column `j` of a row-major table. -/
def colOfRows (rows : List (List Val)) (j : Nat) : List Val :=
  rows.map (fun r => r.getD j (Val.str ""))

/-- Assign column `j` of the value array to the `j`-th target column, in
order. -/
def setColsGo (rows : List (List Val)) : DataFrame → List String → Nat → DataFrame
  | df, [], _ => df
  | df, n :: rest, j => setColsGo rows (setCol df n (colOfRows rows j)) rest (j + 1)

/-- Multi-column assignment `df[names] = rows` (row-major right-hand side).
pandas raises when a row's width does not match the number of target
columns; otherwise each target column receives the corresponding column of
the value array. -/
def setCols (df : DataFrame) (names : List String) (rows : List (List Val)) :
    Option DataFrame :=
  if rows.all (fun r => r.length = names.length) then
    some (setColsGo rows df names 0)
  else none

/-! ### Date canonicalization model (`conversion_helper.date_to_rfc3339`)

`date_to_rfc3339` parses a date string with the external `dateutil` parser,
defaults the timezone to UTC when absent, and re-renders it with Python's
`datetime.isoformat()`.  The formatter below mirrors `isoformat` exactly
(zero-padded fields, microseconds only when non-zero, `±HH:MM` offset);
the parser is a model of the external `dateutil` parser (see
`dateutil_parse`). -/

/-- The decimal digit character for `d % 10`. -/
def digitChar : Nat → Char
  | 0 => '0' | 1 => '1' | 2 => '2' | 3 => '3' | 4 => '4'
  | 5 => '5' | 6 => '6' | 7 => '7' | 8 => '8' | _ => '9'

/-- `padNum k n` renders `n < 10^k` as exactly `k` zero-padded decimal
digits, most significant first. -/
def padNum : Nat → Nat → List Char
  | 0, _ => []
  | k + 1, n => padNum k (n / 10) ++ [digitChar (n % 10)]

/-- Consume exactly `k` decimal digits, accumulating their value. -/
def readFixedAux : Nat → Nat → List Char → Option (Nat × List Char)
  | 0, acc, cs => some (acc, cs)
  | _ + 1, _, [] => none
  | k + 1, acc, c :: cs =>
      if c.isDigit then readFixedAux k (acc * 10 + (c.toNat - 48)) cs else none

/-- Read a fixed-width decimal number of `k` digits. -/
def readFixed (k : Nat) (cs : List Char) : Option (Nat × List Char) :=
  readFixedAux k 0 cs

/-- Consume one expected character. -/
def expectChar (c : Char) : List Char → Option (List Char)
  | [] => none
  | x :: xs => if x = c then some xs else none

/-- A parsed calendar date-time, mirroring Python `datetime.datetime`;
`tzoffset` is the UTC offset in minutes (absent for a naive value). -/
structure DateTime where
  year : Nat
  month : Nat
  day : Nat
  hour : Nat
  minute : Nat
  second : Nat
  microsecond : Nat
  tzoffset : Option Int
deriving DecidableEq, Repr

/-- Gregorian leap-year rule (as Python's `calendar.isleap`). -/
def isLeap (y : Nat) : Bool :=
  y % 4 = 0 && (y % 100 ≠ 0 || y % 400 = 0)

/-- Number of days of month `m` in year `y`. -/
def daysInMonth (y m : Nat) : Nat :=
  if m = 2 then (if isLeap y then 29 else 28)
  else if m = 4 ∨ m = 6 ∨ m = 9 ∨ m = 11 then 30
  else 31

/-- Python's `datetime.timezone` accepts offsets strictly between -24h and
+24h. -/
def offsetOK : Option Int → Bool
  | none => true
  | some off => off.natAbs ≤ 1439

/-- The field ranges Python's `datetime` constructor enforces. -/
def DTValid (dt : DateTime) : Prop :=
  1 ≤ dt.year ∧ dt.year ≤ 9999 ∧ 1 ≤ dt.month ∧ dt.month ≤ 12 ∧
    1 ≤ dt.day ∧ dt.day ≤ daysInMonth dt.year dt.month ∧
    dt.hour ≤ 23 ∧ dt.minute ≤ 59 ∧ dt.second ≤ 59 ∧ dt.microsecond ≤ 999999 ∧
    offsetOK dt.tzoffset = true

instance (dt : DateTime) : Decidable (DTValid dt) := by
  unfold DTValid; infer_instance

/-- Build a `datetime` value, failing (as Python's constructor raises)
when a field is out of range. -/
def mkDateTime (y mo d h mi s us : Nat) (off : Option Int) : Option DateTime :=
  if DTValid ⟨y, mo, d, h, mi, s, us, off⟩ then some ⟨y, mo, d, h, mi, s, us, off⟩
  else none

/-- Parse `HH:MM[:SS[.ffffff]]`. -/
def parseTime (cs : List Char) : Option ((Nat × Nat × Nat × Nat) × List Char) :=
  match readFixed 2 cs with
  | none => none
  | some (h, cs₁) =>
    match expectChar ':' cs₁ with
    | none => none
    | some cs₂ =>
      match readFixed 2 cs₂ with
      | none => none
      | some (mi, cs₃) =>
        match cs₃ with
        | [] => some ((h, mi, 0, 0), [])
        | c :: cs₄ =>
          if c = ':' then
            match readFixed 2 cs₄ with
            | none => none
            | some (s, cs₅) =>
              match cs₅ with
              | [] => some ((h, mi, s, 0), [])
              | c' :: cs₆ =>
                if c' = '.' then
                  match readFixed 6 cs₆ with
                  | none => none
                  | some (us, cs₇) => some ((h, mi, s, us), cs₇)
                else some ((h, mi, s, 0), c' :: cs₆)
          else some ((h, mi, 0, 0), c :: cs₄)

/-- Parse `HH:MM` of a numeric UTC offset, in minutes. -/
def parseHM (cs : List Char) : Option (Nat × List Char) :=
  match readFixed 2 cs with
  | none => none
  | some (hh, cs₁) =>
    match expectChar ':' cs₁ with
    | none => none
    | some cs₂ =>
      match readFixed 2 cs₂ with
      | none => none
      | some (mm, cs₃) => some (hh * 60 + mm, cs₃)

/-- Parse an optional timezone designator: nothing, `Z`, or `±HH:MM`. -/
def parseOffset (cs : List Char) : Option (Option Int × List Char) :=
  match cs with
  | [] => some (none, [])
  | c :: rest =>
    if c = 'Z' then some (some 0, rest)
    else if c = '+' then (parseHM rest).map (fun p => (some (p.1 : Int), p.2))
    else if c = '-' then (parseHM rest).map (fun p => (some (-(p.1 : Int)), p.2))
    else none

/-- Parse an ISO-8601 date or date-time string. -/
def parseISO (cs : List Char) : Option DateTime :=
  match readFixed 4 cs with
  | none => none
  | some (y, cs₁) =>
    match expectChar '-' cs₁ with
    | none => none
    | some cs₂ =>
      match readFixed 2 cs₂ with
      | none => none
      | some (mo, cs₃) =>
        match expectChar '-' cs₃ with
        | none => none
        | some cs₄ =>
          match readFixed 2 cs₄ with
          | none => none
          | some (d, cs₅) =>
            match cs₅ with
            | [] => mkDateTime y mo d 0 0 0 0 none
            | sep :: rest =>
              if sep = 'T' ∨ sep = ' ' then
                match parseTime rest with
                | none => none
                | some ((h, mi, s, us), cs₆) =>
                  match parseOffset cs₆ with
                  | none => none
                  | some (off, cs₇) =>
                    match cs₇ with
                    | [] => mkDateTime y mo d h mi s us off
                    | _ => none
              else none

/-- Parse a US-style `MM/DD/YYYY` date. -/
def parseSlash (cs : List Char) : Option DateTime :=
  match readFixed 2 cs with
  | none => none
  | some (mo, cs₁) =>
    match expectChar '/' cs₁ with
    | none => none
    | some cs₂ =>
      match readFixed 2 cs₂ with
      | none => none
      | some (d, cs₃) =>
        match expectChar '/' cs₃ with
        | none => none
        | some cs₄ =>
          match readFixed 4 cs₄ with
          | none => none
          | some (y, cs₅) =>
            match cs₅ with
            | [] => mkDateTime y mo d 0 0 0 0 none
            | _ => none

/-- Modelled from the spec: the repository delegates date parsing to the
external `dateutil` parser, which is not part of this repository; the spec
says values "are first parsed as a calendar date/time (accepting a broad set
of human date formats)" and "if a parsed value already carries a zone, that
zone is preserved".  The model accepts ISO-8601 date / date-time strings
(`T` or space separator, optional seconds, optional microseconds, optional
`Z` or `±HH:MM` offset) and US-style `MM/DD/YYYY` dates, validating field
ranges exactly as Python's `datetime` constructor does. -/
def dateutil_parse (s : String) : Option DateTime :=
  match parseISO s.data with
  | some dt => some dt
  | none => parseSlash s.data

/-- The sign of a rendered UTC offset. -/
def signChar (off : Int) : Char := if off < 0 then '-' else '+'

/-- `datetime.isoformat()`'s `±HH:MM` UTC-offset suffix. -/
def offsetChars : Option Int → List Char
  | none => []
  | some off =>
      signChar off :: (padNum 2 (off.natAbs / 60) ++ ':' :: padNum 2 (off.natAbs % 60))

/-- `datetime.isoformat()` renders microseconds only when non-zero. -/
def microChars (us : Nat) : List Char :=
  if us = 0 then [] else '.' :: padNum 6 us

/-- Python's `datetime.isoformat()`:
`YYYY-MM-DDTHH:MM:SS[.ffffff][±HH:MM]`. -/
def isoformatChars (dt : DateTime) : List Char :=
  padNum 4 dt.year ++ '-' :: (padNum 2 dt.month ++ '-' :: (padNum 2 dt.day ++
    'T' :: (padNum 2 dt.hour ++ ':' :: (padNum 2 dt.minute ++ ':' ::
      (padNum 2 dt.second ++ (microChars dt.microsecond ++ offsetChars dt.tzoffset))))))

/-- `dt.replace(tzinfo=timezone.utc) if dt.tzinfo is None else dt`. -/
def awareUTC (dt : DateTime) : DateTime :=
  if dt.tzoffset = none then { dt with tzoffset := some 0 } else dt

/-- `conversion_helper.date_to_rfc3339`: parse the date string, default the
timezone to UTC when absent, and render `isoformat()`.  `none` models the
exception raised when the string does not parse. -/
def date_to_rfc3339 (date_str : String) : Option String :=
  match dateutil_parse date_str with
  | none => none
  | some dt => some (String.mk (isoformatChars (awareUTC dt)))

/-! ### Type conversion layer (`conversion_helper.convert_config_types`) -/

/-- `CONFIG_TYPES_MAPPING`: configuration type → pandas dtype. -/
def CONFIG_TYPES_MAPPING : String → Option String
  | "Text" => some "string"
  | "Date" => some "string"
  | "Integer" => some "int64"
  | "Float" => some "float64"
  | _ => none

/-- Digits of a non-empty all-digit character list. -/
def digitsToNat : List Char → Option Nat
  | [] => none
  | cs => go cs 0
where
  go : List Char → Nat → Option Nat
    | [], acc => some acc
    | c :: rest, acc =>
        if c.isDigit then go rest (acc * 10 + (c.toNat - 48)) else none

/-- Parse a decimal integer string (optional leading minus sign). -/
def parseIntStr (s : String) : Option Int :=
  match s.data with
  | '-' :: rest => (digitsToNat rest).map (fun n => -(n : Int))
  | cs => (digitsToNat cs).map (fun n => (n : Int))

/-- `astype("string")` rendering of a cell (floats carry exact integers in
this model, rendered with a trailing `.0` as pandas does for integral
floats). -/
def valToString : Val → String
  | .str s => s
  | .int n => toString n
  | .float x => toString x ++ ".0"

/-- One cell of a pandas `astype(target)` conversion; `none` models the
per-column exception.  Numeric cells are exact integers (machine-float
representation is out of scope), so only integer-form numeric strings
convert. -/
def astypeVal : String → Val → Option Val
  | "string", v => some (.str (valToString v))
  | "int64", .int n => some (.int n)
  | "int64", .str s => (parseIntStr s).map Val.int
  | "int64", .float x => some (.int x)
  | "float64", .float x => some (.float x)
  | "float64", .int n => some (.float n)
  | "float64", .str s => (parseIntStr s).map Val.float
  | _, _ => none

/-- The `Date` post-pass: map `date_to_rfc3339` over the (string) cells. -/
def rfcVal : Val → Option Val
  | .str s => (date_to_rfc3339 s).map Val.str
  | _ => none

/-- `convert_config_types(series, type)`: reject unknown configuration
types, convert the column to the target dtype, and for `Date` re-render
every value in RFC3339 form; any cell failure fails the whole column with
an error naming the column. -/
def convert_config_types (name : String) (values : List Val) (ty : String) :
    Except Err (List Val) :=
  match CONFIG_TYPES_MAPPING ty with
  | none => .error (.invalidType ty)
  | some target =>
    match optionMapList (astypeVal target) values with
    | none => .error (.conversionError name ty)
    | some converted_values =>
      if ty = "Date" then
        match optionMapList rfcVal converted_values with
        | none => .error (.conversionError name ty)
        | some converted_values₂ => .ok converted_values₂
      else .ok converted_values

/-! ### Noise options (`noise_parser.py`) -/

/-- `DURATION_IN_SECONDS`: time duration units in seconds. -/
def DURATION_IN_SECONDS : String → Option Int
  | "Second" => some 1
  | "Minute" => some 60
  | "Hour" => some 3600
  | "Day" => some 86400
  | "Month" => some 2628000
  | "Year" => some 31536000
  | _ => none

/-- The resolved configuration of a `NoiseGenerator`: which constructor of
the external primitive is invoked, and with which arguments. -/
inductive NoiseSpec where
  | withParameters (distribution mean stdDev : OptVal)
  | withBounds (distribution lowerBoundary upperBoundary : OptVal)
deriving DecidableEq, Repr

/-- `create_noise_generator`: the `(mean, std_dev)` parameter form is tried
first, then the `(lower_boundary, upper_boundary)` bounds form; otherwise
`ValueError("Missing noise options.")`. -/
def create_noise_generator (distribution : OptVal)
    (mean std_dev lower_boundary upper_boundary : Option OptVal) :
    Except Err NoiseSpec :=
  match mean, std_dev with
  | some m, some s => .ok (.withParameters distribution m s)
  | _, _ =>
    match lower_boundary, upper_boundary with
    | some l, some u => .ok (.withBounds distribution l u)
    | _, _ => .error .missingNoiseOptions

/-- `opt["precision"] * DURATION_IN_SECONDS[opt["unit"]]`: subscripting a
non-object raises, an unknown unit raises `KeyError`. -/
def timeAmountSeconds : OptVal → Except Err Int
  | .timeAmount p u =>
    match DURATION_IN_SECONDS u with
    | some k => .ok (p * k)
    | none => .error (.keyError u)
  | _ => .error .notSubscriptable

/-- Convert a `(mean, std_dev)`-style or `(lower, upper)`-style pair of
`{precision, unit}` options to seconds; both present or both ignored,
exactly as the two `if ... is not None and ... is not None` blocks of
`create_date_noise_generator`. -/
def pairSeconds (a b : Option OptVal) :
    Except Err (Option OptVal × Option OptVal) :=
  match a, b with
  | some x, some y =>
    match timeAmountSeconds x with
    | .error e => .error e
    | .ok xs =>
      match timeAmountSeconds y with
      | .error e => .error e
      | .ok ys => .ok (some (.num xs), some (.num ys))
  | _, _ => .ok (none, none)

/-- `create_date_noise_generator`: convert the duration options to seconds,
then delegate to `create_noise_generator`. -/
def create_date_noise_generator (distribution : OptVal)
    (mean std_dev lower_boundary upper_boundary : Option OptVal) :
    Except Err NoiseSpec :=
  match pairSeconds mean std_dev with
  | .error e => .error e
  | .ok (mean_secs, std_dev_secs) =>
    match pairSeconds lower_boundary upper_boundary with
    | .error e => .error e
    | .ok (lower_boundary_secs, upper_boundary_secs) =>
      create_noise_generator distribution mean_secs std_dev_secs
        lower_boundary_secs upper_boundary_secs

/-! ### Transform resolver (`method_parser.create_transformation_function`)

The external `cloudproof` primitives (hashing, FPE, word masking, noise
application, ...) are out of scope; they are abstracted by the oracle
record `Prim`.  The resolver's own behavior — registry lookup,
`fine_tuning` stripping, Python keyword-argument binding of the builder
functions, and noise-option resolution — is modelled from the source. -/

/-- Oracle for the external anonymization primitives: an independent value
transform per method, plus the noise primitives built from a resolved
`NoiseSpec`.  An `Except String` result models a raised exception. -/
structure Prim where
  applyMethod : String → List (String × OptVal) → Val → Except String Val
  applyNoise : String → NoiseSpec → Val → Except String Val
  applyCorrelatedNoise : String → NoiseSpec → List Val → List Int → Except String (List Val)

/-- Look up a key in an options mapping (first match). -/
def lookupOpt : List (String × OptVal) → String → Option OptVal
  | [], _ => none
  | (k, v) :: rest, n => if k = n then some v else lookupOpt rest n

/-- The keyword-argument signature of a registered builder function. -/
structure MethodSig where
  func : String
  required : List String
  optional : List String
deriving DecidableEq, Repr

/-- The keyword signature shared by the two noise builders. -/
def noiseSig (method : String) : MethodSig :=
  ⟨if method = "NoiseDate" then "create_date_noise_generator" else "create_noise_generator",
    ["distribution"], ["mean", "std_dev", "lower_boundary", "upper_boundary"]⟩

/-- The `parsing_functions` registry of `create_transformation_function`:
method name → builder signature (required/optional keyword arguments, from
the Python builder-function signatures). -/
def parsing_function_table : List (String × MethodSig) :=
  [("FpeString", ⟨"parse_fpe_string_options", ["alphabet"], ["extend_with"]⟩),
   ("FpeInteger", ⟨"parse_fpe_integer_options", ["radix", "digit"], []⟩),
   ("FpeFloat", ⟨"parse_fpe_float_options", [], []⟩),
   ("TokenizeWords", ⟨"WordTokenizer", ["words_list"], []⟩),
   ("MaskWords", ⟨"WordMasker", ["words_list"], []⟩),
   ("Regex", ⟨"WordPatternMasker", ["pattern", "replace"], []⟩),
   ("Hash", ⟨"parse_hash_options", ["hash_type"], ["salt_value", "encoding"]⟩),
   ("NoiseDate", noiseSig "NoiseDate"),
   ("NoiseInteger", noiseSig "NoiseInteger"),
   ("NoiseFloat", noiseSig "NoiseFloat"),
   ("AggregationDate", ⟨"parse_date_aggregation_options", ["time_unit"], []⟩),
   ("AggregationInteger", ⟨"NumberAggregator", ["power_of_ten"], []⟩),
   ("AggregationFloat", ⟨"NumberAggregator", ["power_of_ten"], []⟩),
   ("RescalingInteger", ⟨"NumberScaler", ["mean", "std_dev", "scale", "translation"], []⟩),
   ("RescalingFloat", ⟨"NumberScaler", ["mean", "std_dev", "scale", "translation"], []⟩)]

/-- Registry lookup (`parsing_functions.get(method_name)`). -/
def findSig : List (String × MethodSig) → String → Option MethodSig
  | [], _ => none
  | (k, v) :: rest, n => if k = n then some v else findSig rest n

/-- Required keyword arguments absent from the supplied options. -/
def missingRequired (sig : MethodSig) (opts : List (String × OptVal)) : List String :=
  sig.required.filter (fun k => (lookupOpt opts k).isNone)

/-- Supplied keys the builder's signature does not accept. -/
def unexpectedKeys (sig : MethodSig) (opts : List (String × OptVal)) : List String :=
  (opts.map (·.1)).filter
    (fun k => !(sig.required.contains k) && !(sig.optional.contains k))

/-- The three noise methods. -/
def isNoiseMethod (m : String) : Bool :=
  m = "NoiseDate" || m = "NoiseInteger" || m = "NoiseFloat"

/-- Resolve a noise method's options into a `NoiseSpec` through
`create_date_noise_generator` / `create_noise_generator`. -/
def resolveNoise (method : String) (opts : List (String × OptVal)) :
    Except Err NoiseSpec :=
  match lookupOpt opts "distribution" with
  | none => .error (.missingArguments (noiseSig method).func ["distribution"])
  | some dist =>
    if method = "NoiseDate" then
      create_date_noise_generator dist (lookupOpt opts "mean")
        (lookupOpt opts "std_dev") (lookupOpt opts "lower_boundary")
        (lookupOpt opts "upper_boundary")
    else
      create_noise_generator dist (lookupOpt opts "mean")
        (lookupOpt opts "std_dev") (lookupOpt opts "lower_boundary")
        (lookupOpt opts "upper_boundary")

/-- `create_transformation_function(method_name, method_opts)`: registry
lookup (`Unknown method named` otherwise), `fine_tuning` stripping, Python
keyword binding of the builder (unexpected-keyword and missing-argument
`TypeError`s), then the builder body; the built closure invokes the
external primitive oracle. -/
def create_transformation_function (prim : Prim) (method_name : String)
    (method_opts : List (String × OptVal)) : Except Err (Val → Except String Val) :=
  match findSig parsing_function_table method_name with
  | none => .error (.unknownMethod method_name)
  | some sig =>
    let filtered_method_opts := method_opts.filter (fun kv => kv.1 != "fine_tuning")
    match unexpectedKeys sig filtered_method_opts with
    | k :: _ => .error (.unexpectedArgument sig.func k)
    | [] =>
      match missingRequired sig filtered_method_opts with
      | m :: rest => .error (.missingArguments sig.func (m :: rest))
      | [] =>
        if isNoiseMethod method_name then
          match resolveNoise method_name filtered_method_opts with
          | .error e => .error e
          | .ok spec => .ok (fun v => prim.applyNoise method_name spec v)
        else
          .ok (fun v => prim.applyMethod method_name filtered_method_opts v)

/-! ### Correlation grouper (`noise_correlation.py`) -/

/-- A column descriptor of the configuration's `metadata` list (already
decamelized to snake_case, as `anonymize_dataframe` does on entry); absent
`method` / `method_options` keys are `none`. -/
structure Descriptor where
  name : String
  type : String
  method : Option String := none
  method_options : Option (List (String × OptVal)) := none
deriving DecidableEq, Repr

/-- The configuration document (the parts the pipeline reads). -/
structure Config where
  metadata : List Descriptor
deriving DecidableEq, Repr

/-- `NoiseCorrelationTask.__init__`: keep the method, strip `correlation`
and `fine_tuning` from the options, start with no member columns. -/
structure NoiseCorrelationTask where
  method : String
  options : List (String × OptVal)
  column_names : List String
deriving DecidableEq, Repr

/-- `NoiseCorrelationTask(method, opts)`. -/
def NoiseCorrelationTask.init (method : String) (opts : List (String × OptVal)) :
    NoiseCorrelationTask :=
  ⟨method,
   opts.filter (fun kv => kv.1 != "correlation" && kv.1 != "fine_tuning"),
   []⟩

/-- `NoiseCorrelationTask.add_column`. -/
def NoiseCorrelationTask.add_column (t : NoiseCorrelationTask) (column_name : String) :
    NoiseCorrelationTask :=
  { t with column_names := t.column_names ++ [column_name] }

/-- `NoiseCorrelationTask.generate_transformation`: only the three noise
methods can be correlated; their options are keyword-bound to the noise
builder and resolved, the correlation factors are uniformly 1, and the
returned function applies the correlated-noise primitive to one row. -/
def NoiseCorrelationTask.generate_transformation (t : NoiseCorrelationTask)
    (prim : Prim) : Except Err (List Val → Except String (List Val)) :=
  if isNoiseMethod t.method then
    match unexpectedKeys (noiseSig t.method) t.options with
    | k :: _ => .error (.unexpectedArgument (noiseSig t.method).func k)
    | [] =>
      match missingRequired (noiseSig t.method) t.options with
      | m :: rest => .error (.missingArguments (noiseSig t.method).func (m :: rest))
      | [] =>
        match resolveNoise t.method t.options with
        | .error e => .error e
        | .ok spec =>
          .ok (fun data_vec =>
            prim.applyCorrelatedNoise t.method spec data_vec
              (List.replicate t.column_names.length 1))
  else .error (.cannotCorrelate t.method)

/-- Insertion-ordered task dictionary: lookup. -/
def lookupTask : List (OptVal × NoiseCorrelationTask) → OptVal →
    Option NoiseCorrelationTask
  | [], _ => none
  | (k, t) :: rest, uid => if k = uid then some t else lookupTask rest uid

/-- `correlation_uid in tasks`. -/
def hasTask (tasks : List (OptVal × NoiseCorrelationTask)) (uid : OptVal) : Bool :=
  (lookupTask tasks uid).isSome

/-- Update the task stored under an existing key, in place. -/
def modifyTask : List (OptVal × NoiseCorrelationTask) → OptVal →
    (NoiseCorrelationTask → NoiseCorrelationTask) →
    List (OptVal × NoiseCorrelationTask)
  | [], _, _ => []
  | (k, t) :: rest, uid, f =>
      if k = uid then (k, f t) :: rest else (k, t) :: modifyTask rest uid f

/-- The loop body of `parse_noise_correlation_config`: skip descriptors
without `method` or `method_options` or without a `correlation` key; create
the task on the first occurrence of a correlation id; always append the
column name to the task. -/
def parseNoiseCorrelationAux : List (OptVal × NoiseCorrelationTask) →
    List Descriptor → List (OptVal × NoiseCorrelationTask)
  | tasks, [] => tasks
  | tasks, d :: rest =>
    match d.method, d.method_options with
    | some m, some opts =>
      match lookupOpt opts "correlation" with
      | none => parseNoiseCorrelationAux tasks rest
      | some uid =>
        let tasks₁ :=
          if hasTask tasks uid then tasks
          else tasks ++ [(uid, NoiseCorrelationTask.init m opts)]
        parseNoiseCorrelationAux (modifyTask tasks₁ uid (·.add_column d.name)) rest
    | _, _ => parseNoiseCorrelationAux tasks rest

/-- `parse_noise_correlation_config(config)`. -/
def parse_noise_correlation_config (config : Config) :
    List (OptVal × NoiseCorrelationTask) :=
  parseNoiseCorrelationAux [] config.metadata

/-! ### Pipeline orchestrator (`anonymize.py`) -/

/-- `"method" in column_metadata and column_metadata["method"] == "DeleteColumn"`. -/
def isDelete (d : Descriptor) : Bool :=
  d.method == some "DeleteColumn"

/-- The loop of `create_output_dataframe`, with pandas aliasing made
explicit: `dfCur` is the caller's frame as the call progresses (it is the
same object as the working frame `w` exactly when `inplace` is true, so
writes then update both), `w` is the frame being filled with converted
columns, `sorted` accumulates `sorted_output_columns`.  Existence checks
and column reads go — as in the source — through the caller's frame. -/
def createOutputLoop (inplace : Bool) : DataFrame → DataFrame → List String →
    List Descriptor → (Except Err (DataFrame × List String)) × DataFrame
  | dfCur, w, sorted, [] => (.ok (w, sorted), dfCur)
  | dfCur, w, sorted, d :: rest =>
    if hasCol dfCur d.name then
      if isDelete d then createOutputLoop inplace dfCur w sorted rest
      else
        match convert_config_types d.name ((getCol dfCur d.name).getD []) d.type with
        | .error e => (.error e, dfCur)
        | .ok conv =>
          createOutputLoop inplace (if inplace then setCol w d.name conv else dfCur)
            (setCol w d.name conv) (sorted ++ [d.name]) rest
    else (.error (.missingColumn d.name), dfCur)

/-- `create_output_dataframe(df, config, inplace)`: start from the caller's
frame (`inplace`) or an empty frame, validate and convert every configured
column, and return the projection `output_df[sorted_output_columns]` — a
fresh frame holding the non-deleted columns in configuration order.  The
second component is the caller's frame after the call. -/
def create_output_dataframe (df : DataFrame) (config : Config) (inplace : Bool) :
    (Except Err DataFrame) × DataFrame :=
  match createOutputLoop inplace df (if inplace then df else []) [] config.metadata with
  | (.error e, dfFin) => (.error e, dfFin)
  | (.ok (w, sorted), dfFin) =>
    match selectCols w sorted with
    | none => (.error (.keyError (toString sorted)), dfFin)
    | some output_df => (.ok output_df, dfFin)

/-- The `for i, val in enumerate(values)` loop of
`apply_anonymization_column`: each transform failure is wrapped in an error
naming the column and the 1-based line. -/
def applyValuesAux (name : String) (transform_func : Val → Except String Val) :
    Nat → List Val → Except Err (List Val)
  | _, [] => .ok []
  | i, v :: vs =>
    match transform_func v with
    | .error e => .error (.transformError name (i + 1) e)
    | .ok w =>
      match applyValuesAux name transform_func (i + 1) vs with
      | .error e => .error e
      | .ok ws => .ok (w :: ws)

/-- `apply_anonymization_column(values, method, method_options)`: no method
or a `correlation` option returns the values unchanged; otherwise resolve
the transform and apply it element-wise. -/
def apply_anonymization_column (prim : Prim) (name : String) (values : List Val)
    (method : Option String) (method_options : List (String × OptVal)) :
    Except Err (List Val) :=
  match method with
  | none => .ok values
  | some m =>
    if (lookupOpt method_options "correlation").isSome then .ok values
    else
      match create_transformation_function prim m method_options with
      | .error e => .error e
      | .ok transform_func => applyValuesAux name transform_func 0 values

/-- The `for i, line_values in enumerate(values)` loop of
`apply_correlation_columns`. -/
def applyRowsAux (cols : List String) (transform_func : List Val → Except String (List Val)) :
    Nat → List (List Val) → Except Err (List (List Val))
  | _, [] => .ok []
  | i, r :: rs =>
    match transform_func r with
    | .error e => .error (.transformRowError cols (i + 1) e)
    | .ok out =>
      match applyRowsAux cols transform_func (i + 1) rs with
      | .error e => .error e
      | .ok outs => .ok (out :: outs)

/-- `apply_correlation_columns(values, task)`: build the task's transform,
then apply it row by row. -/
def apply_correlation_columns (prim : Prim) (values : List (List Val))
    (task : NoiseCorrelationTask) : Except Err (List (List Val)) :=
  match task.generate_transformation prim with
  | .error e => .error e
  | .ok transform_func => applyRowsAux task.column_names transform_func 0 values

/-- The per-column loop of `anonymize_dataframe`: columns deleted from the
output are skipped; every other configured column is replaced by its
anonymized value. -/
def anonymizeColumnsLoop (prim : Prim) : List Descriptor → DataFrame →
    Except Err DataFrame
  | [], output_df => .ok output_df
  | d :: rest, output_df =>
    match getCol output_df d.name with
    | none => anonymizeColumnsLoop prim rest output_df
    | some col =>
      match apply_anonymization_column prim d.name col d.method
          (d.method_options.getD []) with
      | .error e => .error e
      | .ok res => anonymizeColumnsLoop prim rest (setCol output_df d.name res)

/-- The correlation loop of `anonymize_dataframe`: for each task, read the
member columns row-major, apply the correlated transform, and write the
result back into the member columns. -/
def applyCorrelationLoop (prim : Prim) : List (OptVal × NoiseCorrelationTask) →
    DataFrame → Except Err DataFrame
  | [], output_df => .ok output_df
  | (_, task) :: rest, output_df =>
    match selectValues output_df task.column_names with
    | none => .error (.keyError (toString task.column_names))
    | some cols =>
      match apply_correlation_columns prim (rowsOf cols) task with
      | .error e => .error e
      | .ok result =>
        match setCols output_df task.column_names result with
        | none => .error .shapeError
        | some output_df₁ => applyCorrelationLoop prim rest output_df₁

/-- `anonymize_dataframe(df, config, inplace)`.  The configuration is
already snake_case (the `decamelize` call is external key renaming).  The
first component is the returned frame or the raised error; the second is
the caller's input frame after the call (only `inplace=True` type
conversion ever writes to it — the projection made by
`create_output_dataframe` is a fresh frame). -/
def anonymize_dataframe (prim : Prim) (df : DataFrame) (config : Config)
    (inplace : Bool := false) : (Except Err DataFrame) × DataFrame :=
  match create_output_dataframe df config inplace with
  | (.error e, dfFin) => (.error e, dfFin)
  | (.ok output_df, dfFin) =>
    match anonymizeColumnsLoop prim config.metadata output_df with
    | .error e => (.error e, dfFin)
    | .ok output_df₁ =>
      match applyCorrelationLoop prim (parse_noise_correlation_config config) output_df₁ with
      | .error e => (.error e, dfFin)
      | .ok output_df₂ => (.ok output_df₂, dfFin)

/-- A trivial primitive oracle (identity transforms) used to evaluate the
pipeline on concrete inputs. -/
def primId : Prim where
  applyMethod := fun _ _ v => .ok v
  applyNoise := fun _ _ v => .ok v
  applyCorrelatedNoise := fun _ _ row _ => .ok row

/-! ### Specification-side views of the correlation grouper and the pipeline
postcondition -/

/-- The correlation id of a descriptor, when the descriptor has a `method`,
a `method_options` mapping, and a `correlation` key — the exact condition
under which `parse_noise_correlation_config` puts a column in a group. -/
def corrKeyOf (d : Descriptor) : Option OptVal :=
  match d.method, d.method_options with
  | some _, some opts => lookupOpt opts "correlation"
  | _, _ => none

/-- Does descriptor `d` belong to the group with id `uid`? -/
def corrMatches (uid : OptVal) (d : Descriptor) : Bool :=
  if corrKeyOf d = some uid then true else false

/-- The member column names of group `uid`, in configuration order. -/
def groupMembers (uid : OptVal) (ms : List Descriptor) : List String :=
  (ms.filter (corrMatches uid)).map Descriptor.name

/-- The first descriptor (in configuration order) carrying group id `uid`. -/
def firstCorrDescr (uid : OptVal) (ms : List Descriptor) : Option Descriptor :=
  ms.find? (corrMatches uid)

/-- Options with the reserved `correlation` and `fine_tuning` keys removed
(the dict comprehension of `NoiseCorrelationTask.__init__`). -/
def stripReserved (opts : List (String × OptVal)) : List (String × OptVal) :=
  opts.filter (fun kv => kv.1 != "correlation" && kv.1 != "fine_tuning")

/-- Is the descriptor handled by the correlation pass? -/
def inCorrGroup (d : Descriptor) : Bool :=
  (corrKeyOf d).isSome

/-- The keys of the task dictionary, in insertion order. -/
def keysT (tasks : List (OptVal × NoiseCorrelationTask)) : List OptVal :=
  tasks.map (·.1)

/-- The converted (step-1) value of column `n`: its descriptor's declared
type applied to its input values.  Used to state the pipeline
postcondition. -/
def convertedColumnOf (df : DataFrame) (cfg : Config) (n : String) :
    Option (List Val) :=
  match cfg.metadata.find? (fun d => d.name == n) with
  | none => none
  | some d =>
    match getCol df n with
    | none => none
    | some src =>
      match convert_config_types n src d.type with
      | .error _ => none
      | .ok conv => some conv

/-- The postcondition of a successful `anonymize_dataframe` call: every
configured column exists in the input; deleted columns are absent from the
output; every remaining column was fully converted and — unless it belongs
to a correlation group — fully transformed by its method; and every
correlation group's member columns hold exactly the group transform of
their converted values, row by row. -/
def FullyAnonymized (prim : Prim) (df : DataFrame) (cfg : Config)
    (out : DataFrame) : Prop :=
  (∀ d ∈ cfg.metadata,
    (getCol df d.name).isSome = true ∧
    (isDelete d = true → d.name ∉ keys out) ∧
    (isDelete d = false →
      ∃ conv, convert_config_types d.name ((getCol df d.name).getD []) d.type
          = .ok conv ∧
        (inCorrGroup d = true ∨
          ∃ res, apply_anonymization_column prim d.name conv d.method
              (d.method_options.getD []) = .ok res ∧
            getCol out d.name = some res)))
  ∧ (∀ p ∈ parse_noise_correlation_config cfg,
      ∃ convCols res,
        optionMapList (convertedColumnOf df cfg) p.2.column_names = some convCols ∧
        apply_correlation_columns prim (rowsOf convCols) p.2 = .ok res ∧
        ∀ j, j < p.2.column_names.length →
          getCol out (p.2.column_names.getD j "") = some (colOfRows res j))

/-! ### Concrete fixtures used by the witnesses -/

/-- A three-column input frame. -/
def dfA : DataFrame :=
  [("a", [.int 1, .int 2]), ("b", [.str "x", .str "y"]), ("c", [.int 5, .int 6])]

/-- Hash one column, delete one, pass one through. -/
def cfgA : Config :=
  ⟨[⟨"a", "Integer", some "Hash", some [("hash_type", .str "SHA2")]⟩,
    ⟨"b", "Text", some "DeleteColumn", none⟩,
    ⟨"c", "Integer", none, none⟩]⟩

/-- Input frame for the correlated-noise fixture. -/
def dfB : DataFrame :=
  [("a", [.int 1, .int 2]), ("c", [.int 5, .int 6]), ("b", [.int 7, .int 8])]

/-- Columns `a` and `c` share correlation group `g1`; `b` is independent. -/
def cfgB : Config :=
  ⟨[⟨"a", "Integer", some "NoiseInteger",
      some [("distribution", .str "Gaussian"), ("mean", .num 0),
            ("std_dev", .num 1), ("correlation", .str "g1")]⟩,
    ⟨"b", "Integer", none, none⟩,
    ⟨"c", "Integer", some "NoiseInteger",
      some [("distribution", .str "Gaussian"), ("mean", .num 0),
            ("std_dev", .num 1), ("correlation", .str "g1")]⟩]⟩

/-- A frame whose only column cannot be converted to `Integer`. -/
def dfX : DataFrame := [("a", [.str "notanumber"])]

/-- Configuration naming an unconvertible column `a` before a missing
column `b`. -/
def cfgX : Config :=
  ⟨[⟨"a", "Integer", none, none⟩, ⟨"b", "Text", none, none⟩]⟩

/-- A well-typed single-column frame. -/
def dfY : DataFrame := [("a", [Val.int 1])]

/-- Configuration with a convertible column `a` before a missing column
`b`. -/
def cfgY : Config :=
  ⟨[⟨"a", "Integer", none, none⟩, ⟨"b", "Text", none, none⟩]⟩

theorem startsWithChars_self_append (n t : List Char) :
    startsWithChars n (n ++ t) = true := by
  induction n with
  | nil => rfl
  | cons a as ih => simp [startsWithChars, ih]

theorem containsSub_of_startsWith (n hay : List Char) (h : startsWithChars n hay = true) :
    containsSub n hay = true := by
  cases hay with
  | nil => simpa [containsSub] using h
  | cons c rest => simp [containsSub, h]

theorem containsSub_append_right (n h₁ h₂ : List Char) (h : containsSub n h₂ = true) :
    containsSub n (h₁ ++ h₂) = true := by
  induction h₁ with
  | nil => simpa using h
  | cons c rest ih =>
    show containsSub n (c :: (rest ++ h₂)) = true
    rw [containsSub]
    rw [ih]
    simp

theorem containsSub_self_append (n t : List Char) :
    containsSub n (n ++ t) = true :=
  containsSub_of_startsWith _ _ (startsWithChars_self_append n t)

/-! #### Basic DataFrame lemmas -/

theorem getCol_setCol_self (df : DataFrame) (n : String) (v : List Val) :
    getCol (setCol df n v) n = some v := by
  induction df with
  | nil => simp [setCol, getCol]
  | cons p rest ih =>
    obtain ⟨k, w⟩ := p
    by_cases h : k = n
    · simp [setCol, getCol, h]
    · simp [setCol, getCol, h, ih]

theorem getCol_setCol_ne (df : DataFrame) (n m : String) (v : List Val) (h : m ≠ n) :
    getCol (setCol df n v) m = getCol df m := by
  induction df with
  | nil =>
    show (if n = m then some v else none) = none
    rw [if_neg (Ne.symm h)]
  | cons p rest ih =>
    obtain ⟨k, w⟩ := p
    simp only [setCol]
    by_cases hk : k = n
    · rw [if_pos hk]
      have hkm : ¬ (k = m) := by rw [hk]; exact Ne.symm h
      simp only [getCol]
      rw [if_neg hkm, if_neg hkm]
    · rw [if_neg hk]
      simp only [getCol]
      by_cases hkm : k = m
      · rw [if_pos hkm, if_pos hkm]
      · rw [if_neg hkm, if_neg hkm, ih]

theorem mem_keys_iff_getCol (df : DataFrame) (n : String) :
    n ∈ keys df ↔ (getCol df n).isSome := by
  induction df with
  | nil => simp [keys, getCol]
  | cons p rest ih =>
    obtain ⟨k, w⟩ := p
    by_cases h : k = n
    · simp [keys, getCol, h]
    · simp only [keys, getCol, List.mem_cons, if_neg h]
      constructor
      · intro hh
        rcases hh with hh | hh
        · exact absurd hh.symm h
        · exact ih.mp hh
      · intro hh; exact Or.inr (ih.mpr hh)

theorem keys_setCol_mem (df : DataFrame) (n : String) (v : List Val)
    (h : n ∈ keys df) : keys (setCol df n v) = keys df := by
  induction df with
  | nil => simp [keys] at h
  | cons p rest ih =>
    obtain ⟨k, w⟩ := p
    by_cases hk : k = n
    · simp [setCol, hk, keys]
    · have hn : n ∈ keys rest := by
        rcases (by simpa [keys] using h) with h' | h'
        · exact absurd h'.symm hk
        · exact h'
      simp [setCol, hk, keys, ih hn]

theorem hasCol_iff_mem_keys (df : DataFrame) (n : String) :
    hasCol df n = true ↔ n ∈ keys df := by
  rw [mem_keys_iff_getCol]; simp [hasCol]

/-- Every column of `setCol df n v` satisfies `P` when every column of `df`
does and `v` does. -/
theorem setCol_preserves (P : List Val → Prop) (df : DataFrame) (n : String)
    (v : List Val) (hdf : ∀ p ∈ df, P p.2) (hv : P v) :
    ∀ p ∈ setCol df n v, P p.2 := by
  induction df with
  | nil => intro p hp; simp [setCol] at hp; simp [hp, hv]
  | cons q rest ih =>
    obtain ⟨k, w⟩ := q
    intro p hp
    by_cases hk : k = n
    · simp [setCol, hk] at hp
      rcases hp with hp | hp
      · simp [hp, hv]
      · exact hdf p (by simp [hp])
    · simp [setCol, hk] at hp
      rcases hp with hp | hp
      · exact hdf p (by simp [hp])
      · exact ih (fun q hq => hdf q (by simp [hq])) p hp

theorem optionMapList_length (f : α → Option β) (l : List α) (r : List β)
    (h : optionMapList f l = some r) : r.length = l.length := by
  induction l generalizing r with
  | nil => simp [optionMapList] at h; simp [← h]
  | cons a rest ih =>
    simp only [optionMapList] at h
    cases hf : f a with
    | none => simp [hf] at h
    | some b =>
      simp only [hf] at h
      cases hr : optionMapList f rest with
      | none => simp [hr] at h
      | some bs =>
        simp only [hr] at h
        cases h
        simp [ih bs hr]

theorem optionMapList_mem (f : α → Option β) (l : List α) (r : List β)
    (h : optionMapList f l = some r) :
    ∀ b ∈ r, ∃ a ∈ l, f a = some b := by
  induction l generalizing r with
  | nil =>
    simp only [optionMapList, Option.some.injEq] at h
    subst h; intro b hb; simp at hb
  | cons a rest ih =>
    simp only [optionMapList] at h
    cases hf : f a with
    | none => simp [hf] at h
    | some b =>
      simp only [hf] at h
      cases hr : optionMapList f rest with
      | none => simp [hr] at h
      | some bs =>
        simp only [hr, Option.some.injEq] at h
        subst h
        intro c hc
        rcases List.mem_cons.mp hc with hc | hc
        · exact ⟨a, by simp, by simpa [hc] using hf⟩
        · rcases ih bs hr c hc with ⟨a', ha', hfa'⟩
          exact ⟨a', by simp [ha'], hfa'⟩

theorem digitChar_spec : ∀ d, d < 10 →
    (digitChar d).isDigit = true ∧ (digitChar d).toNat - 48 = d := by decide

theorem readFixedAux_pad (k : Nat) : ∀ (extra acc n : Nat) (rest : List Char),
    n < 10 ^ k →
    readFixedAux (k + extra) acc (padNum k n ++ rest)
      = readFixedAux extra (acc * 10 ^ k + n) rest := by
  induction k with
  | zero =>
    intro extra acc n rest hn
    interval_cases n
    simp [padNum]
  | succ k ih =>
    intro extra acc n rest hn
    have hdiv : n / 10 < 10 ^ k := by
      rw [Nat.div_lt_iff_lt_mul (by norm_num)]
      calc n < 10 ^ (k + 1) := hn
        _ = 10 ^ k * 10 := by rw [pow_succ]
    have hstep : (k + 1) + extra = k + (extra + 1) := by omega
    have hmod : n % 10 < 10 := Nat.mod_lt _ (by norm_num)
    obtain ⟨hd1, hd2⟩ := digitChar_spec (n % 10) hmod
    calc readFixedAux ((k + 1) + extra) acc (padNum (k + 1) n ++ rest)
        = readFixedAux (k + (extra + 1)) acc
            (padNum k (n / 10) ++ (digitChar (n % 10) :: rest)) := by
          rw [hstep]; simp [padNum]
      _ = readFixedAux (extra + 1) (acc * 10 ^ k + n / 10)
            (digitChar (n % 10) :: rest) := ih (extra + 1) acc (n / 10) _ hdiv
      _ = readFixedAux extra ((acc * 10 ^ k + n / 10) * 10 + (n % 10)) rest := by
          rw [readFixedAux, if_pos hd1, hd2]
      _ = readFixedAux extra (acc * 10 ^ (k + 1) + n) rest := by
          congr 1
          have hdm : n / 10 * 10 + n % 10 = n := by omega
          rw [pow_succ]
          calc (acc * 10 ^ k + n / 10) * 10 + n % 10
              = acc * (10 ^ k * 10) + (n / 10 * 10 + n % 10) := by ring
            _ = acc * (10 ^ k * 10) + n := by rw [hdm]

theorem readFixed_pad (k n : Nat) (rest : List Char) (hn : n < 10 ^ k) :
    readFixed k (padNum k n ++ rest) = some (n, rest) := by
  have := readFixedAux_pad k 0 0 n rest hn
  rw [Nat.add_zero] at this
  rw [readFixed, this]
  simp [readFixedAux]

theorem expectChar_cons (c : Char) (rest : List Char) :
    expectChar c (c :: rest) = some rest := by
  simp [expectChar]

theorem mkDateTime_valid (y mo d h mi s us : Nat) (off : Option Int)
    (dt : DateTime) (hh : mkDateTime y mo d h mi s us off = some dt) :
    DTValid dt := by
  unfold mkDateTime at hh
  split at hh
  · cases hh; assumption
  · cases hh

theorem mkDateTime_of_valid (dt : DateTime) (hv : DTValid dt) :
    mkDateTime dt.year dt.month dt.day dt.hour dt.minute dt.second
      dt.microsecond dt.tzoffset = some dt := by
  unfold mkDateTime
  rw [if_pos hv]

/-! ### Round-trip of `isoformat()` through the date parser -/

theorem daysInMonth_le (y m : Nat) : daysInMonth y m ≤ 31 := by
  unfold daysInMonth
  split
  · split <;> omega
  · split <;> omega

theorem parseHM_fmt (hh mm : Nat) (h1 : hh < 100) (h2 : mm < 100) :
    parseHM (padNum 2 hh ++ ':' :: padNum 2 mm) = some (hh * 60 + mm, []) := by
  have h1' : hh < 10 ^ 2 := lt_of_lt_of_eq h1 (by norm_num)
  have h2' : mm < 10 ^ 2 := lt_of_lt_of_eq h2 (by norm_num)
  have r1 : readFixed 2 (padNum 2 hh ++ ':' :: padNum 2 mm)
      = some (hh, ':' :: padNum 2 mm) := readFixed_pad 2 hh _ h1'
  have r2 : readFixed 2 (padNum 2 mm) = some (mm, []) := by
    rw [show padNum 2 mm = padNum 2 mm ++ [] from (List.append_nil _).symm]
    exact readFixed_pad 2 mm [] h2'
  unfold parseHM
  simp only [r1, expectChar_cons, r2]

theorem parseTime_fmt (h mi s us : Nat) (tail : List Char)
    (hh : h < 100) (hmi : mi < 100) (hs : s < 100) (hus : us < 1000000)
    (htail : tail.head? ≠ some '.') :
    parseTime (padNum 2 h ++ ':' :: (padNum 2 mi ++ ':' ::
        (padNum 2 s ++ (microChars us ++ tail))))
      = some ((h, mi, s, us), tail) := by
  have hh' : h < 10 ^ 2 := lt_of_lt_of_eq hh (by norm_num)
  have hmi' : mi < 10 ^ 2 := lt_of_lt_of_eq hmi (by norm_num)
  have hs' : s < 10 ^ 2 := lt_of_lt_of_eq hs (by norm_num)
  have hus' : us < 10 ^ 6 := lt_of_lt_of_eq hus (by norm_num)
  unfold parseTime
  by_cases h0 : us = 0
  · subst h0
    rw [show microChars 0 = [] from rfl]
    cases tail with
    | nil =>
      have q1 : readFixed 2 (padNum 2 h ++ ':' :: (padNum 2 mi ++ ':' :: padNum 2 s))
          = some (h, ':' :: (padNum 2 mi ++ ':' :: padNum 2 s)) := by
        have := readFixed_pad 2 h (':' :: (padNum 2 mi ++ ':' :: (padNum 2 s ++ ([] ++ [])))) hh'
        simpa using this
      have q2 : readFixed 2 (padNum 2 mi ++ ':' :: padNum 2 s)
          = some (mi, ':' :: padNum 2 s) := by
        have := readFixed_pad 2 mi (':' :: (padNum 2 s ++ ([] ++ []))) hmi'
        simpa using this
      have q3 : readFixed 2 (padNum 2 s) = some (s, []) := by
        have := readFixed_pad 2 s [] hs'
        simpa using this
      simp [q1, q2, q3, expectChar_cons]
    | cons c' rest =>
      have hne : ¬ (c' = '.') := by
        intro e
        exact htail (by rw [e]; rfl)
      have q1 : readFixed 2 (padNum 2 h ++ ':' :: (padNum 2 mi ++ ':' ::
          (padNum 2 s ++ c' :: rest)))
          = some (h, ':' :: (padNum 2 mi ++ ':' :: (padNum 2 s ++ c' :: rest))) :=
        readFixed_pad 2 h _ hh'
      have q2 : readFixed 2 (padNum 2 mi ++ ':' :: (padNum 2 s ++ c' :: rest))
          = some (mi, ':' :: (padNum 2 s ++ c' :: rest)) :=
        readFixed_pad 2 mi _ hmi'
      have q3 : readFixed 2 (padNum 2 s ++ c' :: rest) = some (s, c' :: rest) :=
        readFixed_pad 2 s _ hs'
      simp [q1, q2, q3, expectChar_cons, hne]
  · have hmc : microChars us = '.' :: padNum 6 us := by simp [microChars, h0]
    rw [hmc]
    have q1 : readFixed 2 (padNum 2 h ++ ':' :: (padNum 2 mi ++ ':' ::
        (padNum 2 s ++ '.' :: (padNum 6 us ++ tail))))
        = some (h, ':' :: (padNum 2 mi ++ ':' :: (padNum 2 s ++ '.' :: (padNum 6 us ++ tail)))) := by
      have := readFixed_pad 2 h (':' :: (padNum 2 mi ++ ':' ::
        (padNum 2 s ++ ('.' :: padNum 6 us ++ tail)))) hh'
      simpa using this
    have q2 : readFixed 2 (padNum 2 mi ++ ':' :: (padNum 2 s ++ '.' :: (padNum 6 us ++ tail)))
        = some (mi, ':' :: (padNum 2 s ++ '.' :: (padNum 6 us ++ tail))) := by
      have := readFixed_pad 2 mi (':' :: (padNum 2 s ++ ('.' :: padNum 6 us ++ tail))) hmi'
      simpa using this
    have q3 : readFixed 2 (padNum 2 s ++ '.' :: (padNum 6 us ++ tail))
        = some (s, '.' :: (padNum 6 us ++ tail)) := by
      have := readFixed_pad 2 s ('.' :: padNum 6 us ++ tail) hs'
      simpa using this
    have q4 : readFixed 6 (padNum 6 us ++ tail) = some (us, tail) :=
      readFixed_pad 6 us tail hus'
    simp [q1, q2, q3, q4, expectChar_cons]

theorem parseOffset_fmt (off : Int) (hoff : off.natAbs ≤ 1439) :
    parseOffset (offsetChars (some off)) = some (some off, []) := by
  have hd : off.natAbs / 60 < 100 := by omega
  have hm : off.natAbs % 60 < 100 := by omega
  have hsum : off.natAbs / 60 * 60 + off.natAbs % 60 = off.natAbs := by omega
  have key : parseHM (padNum 2 (off.natAbs / 60) ++ ':' :: padNum 2 (off.natAbs % 60))
      = some (off.natAbs, []) := by
    rw [parseHM_fmt _ _ hd hm, hsum]
  by_cases hneg : off < 0
  · have hfmt : offsetChars (some off)
        = '-' :: (padNum 2 (off.natAbs / 60) ++ ':' :: padNum 2 (off.natAbs % 60)) := by
      simp [offsetChars, signChar, hneg]
    have hval : -((off.natAbs : Nat) : Int) = off := by omega
    rw [hfmt]
    simp [parseOffset, key, hval]
    rw [abs_of_neg hneg, neg_neg]
  · have hfmt : offsetChars (some off)
        = '+' :: (padNum 2 (off.natAbs / 60) ++ ':' :: padNum 2 (off.natAbs % 60)) := by
      simp [offsetChars, signChar, hneg]
    have hval : ((off.natAbs : Nat) : Int) = off := by omega
    rw [hfmt]
    simp [parseOffset, key, hval]

theorem offsetChars_head_ne_dot (off : Int) :
    (offsetChars (some off)).head? ≠ some '.' := by
  by_cases hneg : off < 0
  · rw [show offsetChars (some off)
        = '-' :: (padNum 2 (off.natAbs / 60) ++ ':' :: padNum 2 (off.natAbs % 60)) from by
      simp [offsetChars, signChar, hneg]]
    intro hcontr
    exact absurd (Option.some.inj hcontr) (by decide)
  · rw [show offsetChars (some off)
        = '+' :: (padNum 2 (off.natAbs / 60) ++ ':' :: padNum 2 (off.natAbs % 60)) from by
      simp [offsetChars, signChar, hneg]]
    intro hcontr
    exact absurd (Option.some.inj hcontr) (by decide)

theorem parseISO_isoformat (dt : DateTime) (off : Int)
    (hv : DTValid dt) (hoff : dt.tzoffset = some off) :
    parseISO (isoformatChars dt) = some dt := by
  obtain ⟨h1, h2, h3, h4, h5, h6, h7, h8, h9, h10, h11⟩ := hv
  have e4 : (10 : Nat) ^ 4 = 10000 := by norm_num
  have e2 : (10 : Nat) ^ 2 = 100 := by norm_num
  have hy : dt.year < 10 ^ 4 := by rw [e4]; omega
  have hmo : dt.month < 10 ^ 2 := by rw [e2]; omega
  have hday31 : dt.day ≤ 31 := le_trans h6 (daysInMonth_le _ _)
  have hd : dt.day < 10 ^ 2 := by rw [e2]; omega
  have hoffb : off.natAbs ≤ 1439 := by
    rw [hoff] at h11
    simpa [offsetOK] using h11
  have pt : parseTime (padNum 2 dt.hour ++ ':' :: (padNum 2 dt.minute ++ ':' ::
      (padNum 2 dt.second ++ (microChars dt.microsecond ++ offsetChars (some off)))))
      = some ((dt.hour, dt.minute, dt.second, dt.microsecond), offsetChars (some off)) :=
    parseTime_fmt dt.hour dt.minute dt.second dt.microsecond (offsetChars (some off))
      (by omega) (by omega) (by omega) (by omega) (offsetChars_head_ne_dot off)
  have po : parseOffset (offsetChars (some off)) = some (some off, []) :=
    parseOffset_fmt off hoffb
  have ry : readFixed 4 (padNum 4 dt.year ++ '-' :: (padNum 2 dt.month ++ '-' ::
      (padNum 2 dt.day ++ 'T' :: (padNum 2 dt.hour ++ ':' :: (padNum 2 dt.minute ++ ':' ::
      (padNum 2 dt.second ++ (microChars dt.microsecond ++ offsetChars (some off))))))))
      = some (dt.year, '-' :: (padNum 2 dt.month ++ '-' ::
      (padNum 2 dt.day ++ 'T' :: (padNum 2 dt.hour ++ ':' :: (padNum 2 dt.minute ++ ':' ::
      (padNum 2 dt.second ++ (microChars dt.microsecond ++ offsetChars (some off)))))))) :=
    readFixed_pad 4 dt.year _ hy
  have rmo : readFixed 2 (padNum 2 dt.month ++ '-' ::
      (padNum 2 dt.day ++ 'T' :: (padNum 2 dt.hour ++ ':' :: (padNum 2 dt.minute ++ ':' ::
      (padNum 2 dt.second ++ (microChars dt.microsecond ++ offsetChars (some off)))))))
      = some (dt.month, '-' ::
      (padNum 2 dt.day ++ 'T' :: (padNum 2 dt.hour ++ ':' :: (padNum 2 dt.minute ++ ':' ::
      (padNum 2 dt.second ++ (microChars dt.microsecond ++ offsetChars (some off))))))) :=
    readFixed_pad 2 dt.month _ hmo
  have rd : readFixed 2 (padNum 2 dt.day ++ 'T' :: (padNum 2 dt.hour ++ ':' ::
      (padNum 2 dt.minute ++ ':' ::
      (padNum 2 dt.second ++ (microChars dt.microsecond ++ offsetChars (some off))))))
      = some (dt.day, 'T' :: (padNum 2 dt.hour ++ ':' :: (padNum 2 dt.minute ++ ':' ::
      (padNum 2 dt.second ++ (microChars dt.microsecond ++ offsetChars (some off)))))) :=
    readFixed_pad 2 dt.day _ hd
  have hmk := mkDateTime_of_valid dt
    ⟨h1, h2, h3, h4, h5, h6, h7, h8, h9, h10, h11⟩
  rw [hoff] at hmk
  unfold isoformatChars
  rw [hoff]
  unfold parseISO
  simp [ry, rmo, rd, expectChar_cons, pt, po, hmk]

theorem parseISO_valid (cs : List Char) (dt : DateTime)
    (h : parseISO cs = some dt) : DTValid dt := by
  unfold parseISO at h
  repeat' split at h
  all_goals first
    | (cases h)
    | (exact mkDateTime_valid _ _ _ _ _ _ _ _ _ h)

theorem parseSlash_valid (cs : List Char) (dt : DateTime)
    (h : parseSlash cs = some dt) : DTValid dt := by
  unfold parseSlash at h
  repeat' split at h
  all_goals first
    | (cases h)
    | (exact mkDateTime_valid _ _ _ _ _ _ _ _ _ h)

theorem dateutil_parse_valid (s : String) (dt : DateTime)
    (h : dateutil_parse s = some dt) : DTValid dt := by
  unfold dateutil_parse at h
  cases hp : parseISO s.data with
  | some dt' =>
    rw [hp] at h
    cases h
    exact parseISO_valid _ _ hp
  | none =>
    rw [hp] at h
    exact parseSlash_valid _ _ h

theorem awareUTC_valid (dt : DateTime) (hv : DTValid dt) : DTValid (awareUTC dt) := by
  unfold awareUTC
  split
  · exact ⟨hv.1, hv.2.1, hv.2.2.1, hv.2.2.2.1, hv.2.2.2.2.1, hv.2.2.2.2.2.1,
      hv.2.2.2.2.2.2.1, hv.2.2.2.2.2.2.2.1, hv.2.2.2.2.2.2.2.2.1,
      hv.2.2.2.2.2.2.2.2.2.1, rfl⟩
  · exact hv

theorem awareUTC_aware (dt : DateTime) : ∃ o, (awareUTC dt).tzoffset = some o := by
  unfold awareUTC
  split
  · exact ⟨0, rfl⟩
  · next hne =>
    cases ho : dt.tzoffset with
    | none => exact absurd ho hne
    | some o => exact ⟨o, rfl⟩

theorem awareUTC_of_aware (dt : DateTime) (o : Int) (h : dt.tzoffset = some o) :
    awareUTC dt = dt := by
  unfold awareUTC
  rw [h]
  simp

theorem dateutil_parse_mk_isoformat (dt : DateTime) (off : Int)
    (hv : DTValid dt) (hoff : dt.tzoffset = some off) :
    dateutil_parse (String.mk (isoformatChars dt)) = some dt := by
  unfold dateutil_parse
  have hdata : (String.mk (isoformatChars dt)).data = isoformatChars dt := rfl
  rw [hdata, parseISO_isoformat dt off hv hoff]

/-! ### Generic lemmas about the DataFrame operations and loop helpers -/

theorem optionMapList_forall (f : α → Option β) (l : List α) (r : List β)
    (h : optionMapList f l = some r) : ∀ a ∈ l, ∃ b, f a = some b := by
  induction l generalizing r with
  | nil => intro a ha; simp at ha
  | cons a rest ih =>
    simp only [optionMapList] at h
    cases hf : f a with
    | none => simp [hf] at h
    | some b =>
      simp only [hf] at h
      cases hr : optionMapList f rest with
      | none => simp [hr] at h
      | some bs =>
        intro c hc
        rcases List.mem_cons.mp hc with hc | hc
        · exact ⟨b, hc ▸ hf⟩
        · exact ih bs hr c hc

theorem optionMapList_congr (f g : α → Option β) (l : List α)
    (h : ∀ a ∈ l, f a = g a) : optionMapList f l = optionMapList g l := by
  induction l with
  | nil => rfl
  | cons a rest ih =>
    simp only [optionMapList]
    rw [h a (by simp), ih (fun a ha => h a (by simp [ha]))]

theorem selectCols_keys (df : DataFrame) (names : List String) (out : DataFrame)
    (h : selectCols df names = some out) : keys out = names := by
  induction names generalizing out with
  | nil =>
    simp only [selectCols, optionMapList, Option.some.injEq] at h
    subst h; rfl
  | cons n rest ih =>
    simp only [selectCols, optionMapList] at h
    cases hg : getCol df n with
    | none => simp [hg] at h
    | some c =>
      simp only [hg, Option.map_some'] at h
      cases hr : optionMapList (fun n => (getCol df n).map (fun c => (n, c))) rest with
      | none => simp [hr] at h
      | some bs =>
        simp only [hr, Option.some.injEq] at h
        subst h
        have : selectCols df rest = some bs := hr
        simp [keys, ih bs this]

theorem selectCols_getCol (df : DataFrame) (names : List String) (out : DataFrame)
    (h : selectCols df names = some out) :
    ∀ n ∈ names, getCol out n = getCol df n := by
  induction names generalizing out with
  | nil => intro n hn; simp at hn
  | cons m rest ih =>
    simp only [selectCols, optionMapList] at h
    cases hg : getCol df m with
    | none => simp [hg] at h
    | some c =>
      simp only [hg, Option.map_some'] at h
      cases hr : optionMapList (fun n => (getCol df n).map (fun c => (n, c))) rest with
      | none => simp [hr] at h
      | some bs =>
        simp only [hr, Option.some.injEq] at h
        subst h
        intro n hn
        rcases List.mem_cons.mp hn with hn | hn
        · subst hn; simp [getCol, hg]
        · by_cases hnm : (m = n)
          · subst hnm; simp [getCol, hg]
          · simp only [getCol, if_neg hnm]
            exact ih bs hr n hn

theorem getCol_not_mem (df : DataFrame) (n : String) (h : n ∉ keys df) :
    getCol df n = none := by
  cases hg : getCol df n with
  | none => rfl
  | some c =>
    exact absurd ((mem_keys_iff_getCol df n).mpr (by simp [hg])) h

theorem getCol_of_invariant (P : List Val → Prop) (df : DataFrame)
    (hdf : ∀ p ∈ df, P p.2) (n : String) (c : List Val) (h : getCol df n = some c) :
    P c := by
  induction df with
  | nil => simp [getCol] at h
  | cons p rest ih =>
    obtain ⟨k, w⟩ := p
    simp only [getCol] at h
    by_cases hk : k = n
    · rw [if_pos hk] at h
      cases h
      exact hdf (k, c) (by simp)
    · rw [if_neg hk] at h
      exact ih (fun q hq => hdf q (by simp [hq])) h

theorem applyValuesAux_length (name : String) (f : Val → Except String Val) :
    ∀ (i : Nat) (vs res : List Val), applyValuesAux name f i vs = .ok res →
      res.length = vs.length := by
  intro i vs
  induction vs generalizing i with
  | nil =>
    intro res h
    simp only [applyValuesAux] at h
    cases h; rfl
  | cons v vs ih =>
    intro res h
    simp only [applyValuesAux] at h
    cases hf : f v with
    | error e => rw [hf] at h; cases h
    | ok w =>
      rw [hf] at h
      cases hrest : applyValuesAux name f (i + 1) vs with
      | error e => rw [hrest] at h; cases h
      | ok ws =>
        rw [hrest] at h
        cases h
        simp [ih (i + 1) ws hrest]

theorem applyRowsAux_length (cols : List String)
    (f : List Val → Except String (List Val)) :
    ∀ (i : Nat) (rs res : List (List Val)), applyRowsAux cols f i rs = .ok res →
      res.length = rs.length := by
  intro i rs
  induction rs generalizing i with
  | nil =>
    intro res h
    simp only [applyRowsAux] at h
    cases h; rfl
  | cons r rs ih =>
    intro res h
    simp only [applyRowsAux] at h
    cases hf : f r with
    | error e => rw [hf] at h; cases h
    | ok out =>
      rw [hf] at h
      cases hrest : applyRowsAux cols f (i + 1) rs with
      | error e => rw [hrest] at h; cases h
      | ok outs =>
        rw [hrest] at h
        cases h
        simp [ih (i + 1) outs hrest]

theorem apply_anonymization_column_length (prim : Prim) (name : String)
    (values : List Val) (method : Option String)
    (method_options : List (String × OptVal)) (res : List Val)
    (h : apply_anonymization_column prim name values method method_options = .ok res) :
    res.length = values.length := by
  cases method with
  | none =>
    simp only [apply_anonymization_column, Except.ok.injEq] at h
    simp [← h]
  | some m =>
    simp only [apply_anonymization_column] at h
    by_cases hc : (lookupOpt method_options "correlation").isSome
    · rw [if_pos hc] at h
      simp only [Except.ok.injEq] at h
      simp [← h]
    · rw [if_neg hc] at h
      cases htf : create_transformation_function prim m method_options with
      | error e => rw [htf] at h; cases h
      | ok f =>
        rw [htf] at h
        exact applyValuesAux_length name f 0 values res h

theorem apply_anonymization_column_corr (prim : Prim) (name : String)
    (values : List Val) (m : String) (method_options : List (String × OptVal))
    (h : (lookupOpt method_options "correlation").isSome) :
    apply_anonymization_column prim name values (some m) method_options = .ok values := by
  simp only [apply_anonymization_column]
  rw [if_pos h]

theorem convert_config_types_length (name : String) (values : List Val) (ty : String)
    (conv : List Val) (h : convert_config_types name values ty = .ok conv) :
    conv.length = values.length := by
  unfold convert_config_types at h
  cases hm : CONFIG_TYPES_MAPPING ty with
  | none => simp [hm] at h
  | some target =>
    simp only [hm] at h
    cases h1 : optionMapList (astypeVal target) values with
    | none => simp [h1] at h
    | some c1 =>
      simp only [h1] at h
      by_cases hd : ty = "Date"
      · rw [if_pos hd] at h
        cases h2 : optionMapList rfcVal c1 with
        | none => simp [h2] at h
        | some c2 =>
          simp only [h2, Except.ok.injEq] at h
          subst h
          rw [optionMapList_length _ _ _ h2, optionMapList_length _ _ _ h1]
      · rw [if_neg hd] at h
        simp only [Except.ok.injEq] at h
        subst h
        exact optionMapList_length _ _ _ h1

theorem setColsGo_frame (rows : List (List Val)) :
    ∀ (names : List String) (df : DataFrame) (j : Nat) (n : String),
      n ∉ names → getCol (setColsGo rows df names j) n = getCol df n := by
  intro names
  induction names with
  | nil => intro df j n _; rfl
  | cons m rest ih =>
    intro df j n hn
    have hnm : n ≠ m := fun e => hn (by simp [e])
    have hnr : n ∉ rest := fun e => hn (by simp [e])
    simp only [setColsGo]
    rw [ih _ _ n hnr, getCol_setCol_ne _ _ _ _ hnm]

theorem setColsGo_keys (rows : List (List Val)) :
    ∀ (names : List String) (df : DataFrame) (j : Nat),
      (∀ n ∈ names, n ∈ keys df) → keys (setColsGo rows df names j) = keys df := by
  intro names
  induction names with
  | nil => intro df j _; rfl
  | cons m rest ih =>
    intro df j hmem
    simp only [setColsGo]
    have hkeys : keys (setCol df m (colOfRows rows j)) = keys df :=
      keys_setCol_mem df m _ (hmem m (by simp))
    rw [ih _ _ (fun n hn => by rw [hkeys]; exact hmem n (by simp [hn])), hkeys]

theorem setColsGo_get (rows : List (List Val)) :
    ∀ (names : List String) (df : DataFrame) (j k : Nat),
      names.Nodup → k < names.length →
      getCol (setColsGo rows df names j) (names.getD k "")
        = some (colOfRows rows (j + k)) := by
  intro names
  induction names with
  | nil => intro df j k _ hk; simp at hk
  | cons m rest ih =>
    intro df j k hnd hk
    simp only [setColsGo]
    cases k with
    | zero =>
      have hmr : m ∉ rest := (List.nodup_cons.mp hnd).1
      rw [show (m :: rest).getD 0 "" = m from rfl]
      rw [setColsGo_frame rows rest _ _ m hmr, getCol_setCol_self, Nat.add_zero]
    | succ k =>
      have hnd' : rest.Nodup := (List.nodup_cons.mp hnd).2
      have hk' : k < rest.length := by
        have := hk
        simp only [List.length_cons] at this
        omega
      rw [show (m :: rest).getD (k + 1) "" = rest.getD k "" from rfl]
      rw [ih _ (j + 1) k hnd' hk']
      have : j + 1 + k = j + (k + 1) := by omega
      rw [this]

theorem setColsGo_preserves (rows : List (List Val)) (P : List Val → Prop)
    (hrows : ∀ j, P (colOfRows rows j)) :
    ∀ (names : List String) (df : DataFrame) (j : Nat),
      (∀ p ∈ df, P p.2) → ∀ p ∈ setColsGo rows df names j, P p.2 := by
  intro names
  induction names with
  | nil => intro df j hdf; exact hdf
  | cons m rest ih =>
    intro df j hdf
    simp only [setColsGo]
    exact ih _ (j + 1) (setCol_preserves P df m _ hdf (hrows j))

theorem setCols_some (df : DataFrame) (names : List String) (rows : List (List Val))
    (df' : DataFrame) (h : setCols df names rows = some df') :
    df' = setColsGo rows df names 0 := by
  unfold setCols at h
  split at h
  · cases h; rfl
  · cases h

theorem rowsOf_length (cols : List (List Val)) :
    (rowsOf cols).length = (cols.head?.map List.length).getD 0 := by
  simp [rowsOf]

theorem colOfRows_length (rows : List (List Val)) (j : Nat) :
    (colOfRows rows j).length = rows.length := by
  simp [colOfRows]

theorem anonymizeColumnsLoop_keys (prim : Prim) :
    ∀ (ms : List Descriptor) (w w' : DataFrame),
      anonymizeColumnsLoop prim ms w = .ok w' → keys w' = keys w := by
  intro ms
  induction ms with
  | nil =>
    intro w w' h
    simp only [anonymizeColumnsLoop, Except.ok.injEq] at h
    rw [← h]
  | cons d rest ih =>
    intro w w' h
    simp only [anonymizeColumnsLoop] at h
    cases hg : getCol w d.name with
    | none =>
      simp only [hg] at h
      exact ih _ _ h
    | some col =>
      simp only [hg] at h
      cases ha : apply_anonymization_column prim d.name col d.method
          (d.method_options.getD []) with
      | error e => simp [ha] at h
      | ok res =>
        simp only [ha] at h
        rw [ih _ _ h]
        exact keys_setCol_mem w d.name res
          ((mem_keys_iff_getCol w d.name).mpr (by simp [hg]))

theorem selectValues_mem_keys (w : DataFrame) (names : List String)
    (cols : List (List Val)) (h : selectValues w names = some cols) :
    ∀ n ∈ names, n ∈ keys w := by
  intro n hn
  rcases optionMapList_forall _ _ _ h n hn with ⟨c, hc⟩
  exact (mem_keys_iff_getCol w n).mpr (by simp [hc])

theorem applyCorrelationLoop_keys (prim : Prim) :
    ∀ (tasks : List (OptVal × NoiseCorrelationTask)) (w w' : DataFrame),
      applyCorrelationLoop prim tasks w = .ok w' → keys w' = keys w := by
  intro tasks
  induction tasks with
  | nil =>
    intro w w' h
    simp only [applyCorrelationLoop, Except.ok.injEq] at h
    rw [← h]
  | cons p rest ih =>
    intro w w' h
    obtain ⟨u, t⟩ := p
    simp only [applyCorrelationLoop] at h
    cases hs : selectValues w t.column_names with
    | none => simp [hs] at h
    | some cols =>
      simp only [hs] at h
      cases ha : apply_correlation_columns prim (rowsOf cols) t with
      | error e => simp [ha] at h
      | ok result =>
        simp only [ha] at h
        cases hw : setCols w t.column_names result with
        | none => simp [hw] at h
        | some w₁ =>
          simp only [hw] at h
          rw [ih _ _ h, setCols_some _ _ _ _ hw]
          exact setColsGo_keys result t.column_names w 0
            (selectValues_mem_keys w _ _ hs)

theorem apply_correlation_columns_length (prim : Prim) (values : List (List Val))
    (task : NoiseCorrelationTask) (res : List (List Val))
    (h : apply_correlation_columns prim values task = .ok res) :
    res.length = values.length := by
  unfold apply_correlation_columns at h
  cases hg : task.generate_transformation prim with
  | error e => simp [hg] at h
  | ok f =>
    simp only [hg] at h
    exact applyRowsAux_length _ _ 0 _ _ h

theorem anonymizeColumnsLoop_preserves (prim : Prim) (nn : Nat) :
    ∀ (ms : List Descriptor) (w w' : DataFrame),
      (∀ p ∈ w, p.2.length = nn) →
      anonymizeColumnsLoop prim ms w = .ok w' →
      ∀ p ∈ w', p.2.length = nn := by
  intro ms
  induction ms with
  | nil =>
    intro w w' hw h
    simp only [anonymizeColumnsLoop, Except.ok.injEq] at h
    rw [← h]; exact hw
  | cons d rest ih =>
    intro w w' hw h
    simp only [anonymizeColumnsLoop] at h
    cases hg : getCol w d.name with
    | none =>
      simp only [hg] at h
      exact ih _ _ hw h
    | some col =>
      simp only [hg] at h
      cases ha : apply_anonymization_column prim d.name col d.method
          (d.method_options.getD []) with
      | error e => simp [ha] at h
      | ok res =>
        simp only [ha] at h
        have hcol : col.length = nn :=
          getCol_of_invariant (fun c => c.length = nn) w hw d.name col hg
        have hres : res.length = nn := by
          rw [apply_anonymization_column_length prim d.name col _ _ res ha, hcol]
        exact ih _ _
          (setCol_preserves (fun c => c.length = nn) w d.name res hw hres) h

theorem applyCorrelationLoop_preserves (prim : Prim) (nn : Nat) :
    ∀ (tasks : List (OptVal × NoiseCorrelationTask)) (w w' : DataFrame),
      (∀ p ∈ w, p.2.length = nn) →
      applyCorrelationLoop prim tasks w = .ok w' →
      ∀ p ∈ w', p.2.length = nn := by
  intro tasks
  induction tasks with
  | nil =>
    intro w w' hw h
    simp only [applyCorrelationLoop, Except.ok.injEq] at h
    rw [← h]; exact hw
  | cons p rest ih =>
    intro w w' hw h
    obtain ⟨u, t⟩ := p
    simp only [applyCorrelationLoop] at h
    cases hs : selectValues w t.column_names with
    | none => simp [hs] at h
    | some cols =>
      simp only [hs] at h
      cases ha : apply_correlation_columns prim (rowsOf cols) t with
      | error e => simp [ha] at h
      | ok result =>
        simp only [ha] at h
        cases hw₁ : setCols w t.column_names result with
        | none => simp [hw₁] at h
        | some w₁ =>
          simp only [hw₁] at h
          have hcols : ∀ c ∈ cols, c.length = nn := by
            intro c hc
            rcases optionMapList_mem _ _ _ hs c hc with ⟨n, _, hn⟩
            exact getCol_of_invariant (fun c => c.length = nn) w hw n c hn
          have hresl : result.length = (rowsOf cols).length :=
            apply_correlation_columns_length prim _ _ _ ha
          have hinv₁ : ∀ p ∈ w₁, p.2.length = nn := by
            rw [setCols_some _ _ _ _ hw₁]
            cases hcl : cols with
            | nil =>
              have hempty : t.column_names = [] := by
                have := optionMapList_length _ _ _ hs
                rw [hcl] at this
                exact List.length_eq_zero.mp (by simpa using this.symm)
              rw [hempty]
              exact hw
            | cons c cs =>
              have hrows : (rowsOf cols).length = nn := by
                rw [rowsOf_length, hcl]
                simp [hcols c (by simp [hcl])]
              exact setColsGo_preserves result (fun c => c.length = nn)
                (fun j => by
                  show (colOfRows result j).length = nn
                  rw [colOfRows_length, hresl, hrows]) _ w 0 hw
          exact ih _ _ hinv₁ h

theorem createOutputLoop_snd_notinplace :
    ∀ (ms : List Descriptor) (dfCur w : DataFrame) (sorted : List String),
      (createOutputLoop false dfCur w sorted ms).2 = dfCur := by
  intro ms
  induction ms with
  | nil => intro dfCur w sorted; rfl
  | cons d rest ih =>
    intro dfCur w sorted
    simp only [createOutputLoop]
    by_cases hc : hasCol dfCur d.name
    · rw [if_pos hc]
      by_cases hd : isDelete d
      · rw [if_pos hd]
        exact ih _ _ _
      · rw [if_neg hd]
        cases hcv : convert_config_types d.name ((getCol dfCur d.name).getD []) d.type with
        | error e => rfl
        | ok conv =>
          simp only [Bool.false_eq_true, if_false]
          exact ih _ _ _
    · rw [if_neg hc]

theorem createOutputLoop_sorted (inplace : Bool) :
    ∀ (ms : List Descriptor) (dfCur w : DataFrame) (sorted : List String)
      (w' : DataFrame) (sorted' : List String) (dfFin : DataFrame),
      createOutputLoop inplace dfCur w sorted ms = (.ok (w', sorted'), dfFin) →
      sorted' = sorted ++ (ms.filter (fun d => !(isDelete d))).map Descriptor.name := by
  intro ms
  induction ms with
  | nil =>
    intro dfCur w sorted w' sorted' dfFin h
    simp only [createOutputLoop, Prod.mk.injEq, Except.ok.injEq] at h
    obtain ⟨⟨h1, h2⟩, h3⟩ := h
    simp [← h2]
  | cons d rest ih =>
    intro dfCur w sorted w' sorted' dfFin h
    simp only [createOutputLoop] at h
    by_cases hc : hasCol dfCur d.name
    · rw [if_pos hc] at h
      by_cases hd : isDelete d
      · rw [if_pos hd] at h
        rw [ih _ _ _ _ _ _ h]
        simp [hd]
      · rw [if_neg hd] at h
        cases hcv : convert_config_types d.name ((getCol dfCur d.name).getD []) d.type with
        | error e => simp [hcv] at h
        | ok conv =>
          simp only [hcv] at h
          rw [ih _ _ _ _ _ _ h]
          simp [hd]
    · rw [if_neg hc] at h
      simp at h

theorem createOutputLoop_preserves (inplace : Bool) (nn : Nat) :
    ∀ (ms : List Descriptor) (dfCur w : DataFrame) (sorted : List String)
      (w' : DataFrame) (sorted' : List String) (dfFin : DataFrame),
      (∀ p ∈ dfCur, p.2.length = nn) → (∀ p ∈ w, p.2.length = nn) →
      createOutputLoop inplace dfCur w sorted ms = (.ok (w', sorted'), dfFin) →
      ∀ p ∈ w', p.2.length = nn := by
  intro ms
  induction ms with
  | nil =>
    intro dfCur w sorted w' sorted' dfFin hcur hw h
    simp only [createOutputLoop, Prod.mk.injEq, Except.ok.injEq] at h
    obtain ⟨⟨h1, h2⟩, h3⟩ := h
    rw [← h1]; exact hw
  | cons d rest ih =>
    intro dfCur w sorted w' sorted' dfFin hcur hw h
    simp only [createOutputLoop] at h
    by_cases hc : hasCol dfCur d.name
    · rw [if_pos hc] at h
      by_cases hd : isDelete d
      · rw [if_pos hd] at h
        exact ih _ _ _ _ _ _ hcur hw h
      · rw [if_neg hd] at h
        cases hcv : convert_config_types d.name ((getCol dfCur d.name).getD []) d.type with
        | error e => simp [hcv] at h
        | ok conv =>
          simp only [hcv] at h
          have hsrc : ∃ src, getCol dfCur d.name = some src := by
            rcases hg : getCol dfCur d.name with _ | src
            · rw [hasCol, hg] at hc; simp at hc
            · exact ⟨src, rfl⟩
          obtain ⟨src, hsrc⟩ := hsrc
          have hconv : conv.length = nn := by
            rw [hsrc] at hcv
            rw [convert_config_types_length _ _ _ _ hcv]
            simp only [Option.getD_some]
            exact getCol_of_invariant (fun c => c.length = nn) dfCur hcur d.name src hsrc
          have hw' : ∀ p ∈ setCol w d.name conv, p.2.length = nn :=
            setCol_preserves (fun c => c.length = nn) w d.name conv hw hconv
          have hcur' : ∀ p ∈ (if inplace = true then setCol w d.name conv else dfCur),
              p.2.length = nn := by
            split
            · exact hw'
            · exact hcur
          exact ih _ _ _ _ _ _ hcur' hw' h
    · rw [if_neg hc] at h
      simp at h

theorem createOutputLoop_ok_spec (inplace : Bool) :
    ∀ (ms : List Descriptor) (dfCur w : DataFrame) (sorted : List String)
      (w' : DataFrame) (sorted' : List String) (dfFin : DataFrame),
      (inplace = true → w = dfCur) →
      (ms.map Descriptor.name).Nodup →
      createOutputLoop inplace dfCur w sorted ms = (.ok (w', sorted'), dfFin) →
      (∀ d ∈ ms,
        (getCol dfCur d.name).isSome = true ∧
        (isDelete d = false →
          ∃ conv, convert_config_types d.name ((getCol dfCur d.name).getD []) d.type
              = .ok conv ∧ getCol w' d.name = some conv))
      ∧ (∀ n, n ∉ ms.map Descriptor.name → getCol w' n = getCol w n) := by
  intro ms
  induction ms with
  | nil =>
    intro dfCur w sorted w' sorted' dfFin halias hnd h
    simp only [createOutputLoop, Prod.mk.injEq, Except.ok.injEq] at h
    obtain ⟨⟨h1, h2⟩, h3⟩ := h
    subst h1
    exact ⟨fun d hd => by simp at hd, fun n _ => rfl⟩
  | cons d rest ih =>
    intro dfCur w sorted w' sorted' dfFin halias hnd h
    have hpair := List.nodup_cons.mp
      (show (d.name :: rest.map Descriptor.name).Nodup from hnd)
    have hdnr : d.name ∉ rest.map Descriptor.name := hpair.1
    have hndr : (rest.map Descriptor.name).Nodup := hpair.2
    simp only [createOutputLoop] at h
    by_cases hc : hasCol dfCur d.name
    · rw [if_pos hc] at h
      by_cases hdel : isDelete d
      · rw [if_pos hdel] at h
        obtain ⟨IH1, IH2⟩ := ih dfCur w sorted w' sorted' dfFin halias hndr h
        constructor
        · intro d' hd'
          rcases List.mem_cons.mp hd' with hd' | hd'
          · subst hd'
            refine ⟨by simpa [hasCol] using hc, ?_⟩
            intro hfalse
            rw [hdel] at hfalse
            cases hfalse
          · exact IH1 d' hd'
        · intro n hn
          exact IH2 n (fun hmem => hn (by simp [hmem]))
      · rw [if_neg hdel] at h
        cases hcv : convert_config_types d.name ((getCol dfCur d.name).getD []) d.type with
        | error e => simp [hcv] at h
        | ok conv =>
          simp only [hcv] at h
          have halias' : inplace = true →
              setCol w d.name conv
                = (if inplace = true then setCol w d.name conv else dfCur) := by
            intro hip
            rw [if_pos hip]
          obtain ⟨IH1, IH2⟩ := ih
            (if inplace = true then setCol w d.name conv else dfCur)
            (setCol w d.name conv) (sorted ++ [d.name]) w' sorted' dfFin
            halias' hndr h
          have hcur' : ∀ x, x ≠ d.name →
              getCol (if inplace = true then setCol w d.name conv else dfCur) x
                = getCol dfCur x := by
            intro x hx
            split
            · next hip =>
              rw [halias hip]
              exact getCol_setCol_ne dfCur d.name x conv hx
            · rfl
          constructor
          · intro d' hd'
            rcases List.mem_cons.mp hd' with hd' | hd'
            · subst hd'
              refine ⟨by simpa [hasCol] using hc, fun _ => ⟨conv, hcv, ?_⟩⟩
              rw [IH2 d'.name hdnr, getCol_setCol_self]
            · have hne : d'.name ≠ d.name := by
                intro heq
                exact hdnr (heq ▸ (List.mem_map.mpr ⟨d', hd', rfl⟩))
              obtain ⟨f1, f2⟩ := IH1 d' hd'
              rw [hcur' d'.name hne] at f1 f2
              exact ⟨f1, f2⟩
          · intro n hn
            have hn1 : n ∉ rest.map Descriptor.name := fun hmem => hn (by simp [hmem])
            have hn2 : n ≠ d.name := fun heq => hn (by simp [heq])
            rw [IH2 n hn1]
            exact getCol_setCol_ne w d.name n conv hn2
    · rw [if_neg hc] at h
      simp at h

theorem createOutputLoop_missing (inplace : Bool) :
    ∀ (pre : List Descriptor) (dfCur w : DataFrame) (sorted : List String)
      (d : Descriptor) (post : List Descriptor),
      (inplace = true → w = dfCur) →
      (pre.map Descriptor.name).Nodup →
      hasCol dfCur d.name = false →
      (∀ e ∈ pre, hasCol dfCur e.name = true ∧
        (isDelete e = true ∨
          ∃ conv, convert_config_types e.name ((getCol dfCur e.name).getD []) e.type
            = .ok conv)) →
      (createOutputLoop inplace dfCur w sorted (pre ++ d :: post)).1
        = .error (.missingColumn d.name) := by
  intro pre
  induction pre with
  | nil =>
    intro dfCur w sorted d post _ _ hmiss _
    simp [createOutputLoop, hmiss]
  | cons e pre' ih =>
    intro dfCur w sorted d post halias hnd hmiss hpre
    have hce : hasCol dfCur e.name = true := (hpre e (by simp)).1
    have hdne : d.name ≠ e.name := by
      intro heq
      rw [heq] at hmiss
      rw [hmiss] at hce
      cases hce
    have hpair := List.nodup_cons.mp
      (show (e.name :: pre'.map Descriptor.name).Nodup from hnd)
    have hnd' : (pre'.map Descriptor.name).Nodup := hpair.2
    have hener : e.name ∉ pre'.map Descriptor.name := hpair.1
    show (createOutputLoop inplace dfCur w sorted (e :: (pre' ++ d :: post))).1 = _
    simp only [createOutputLoop]
    rw [if_pos hce]
    by_cases hdel : isDelete e
    · rw [if_pos hdel]
      exact ih dfCur w sorted d post halias hnd' hmiss
        (fun e' he' => hpre e' (by simp [he']))
    · rw [if_neg hdel]
      rcases (hpre e (by simp)).2 with hdel' | ⟨conv, hcv⟩
      · rw [hdel'] at hdel; cases hdel rfl
      · rw [hcv]
        have hmemE : e.name ∈ keys dfCur := (hasCol_iff_mem_keys dfCur e.name).mp hce
        have hcur' : ∀ x, x ≠ e.name →
            getCol (if inplace = true then setCol w e.name conv else dfCur) x
              = getCol dfCur x := by
          intro x hx
          split
          · next hip =>
            rw [halias hip]
            exact getCol_setCol_ne dfCur e.name x conv hx
          · rfl
        have halias' : inplace = true →
            setCol w e.name conv
              = (if inplace = true then setCol w e.name conv else dfCur) := by
          intro hip
          rw [if_pos hip]
        have hmiss' :
            hasCol (if inplace = true then setCol w e.name conv else dfCur) d.name
              = false := by
          rw [hasCol, hcur' d.name hdne]
          simpa [hasCol] using hmiss
        refine ih _ _ _ d post halias' hnd' hmiss' ?_
        intro e' he'
        have hne' : e'.name ≠ e.name := by
          intro heq
          exact hener (heq ▸ (List.mem_map.mpr ⟨e', he', rfl⟩))
        obtain ⟨f1, f2⟩ := hpre e' (by simp [he'])
        constructor
        · show (getCol (if inplace = true then setCol w e.name conv else dfCur)
            e'.name).isSome = true
          rw [hcur' e'.name hne']
          exact f1
        · rcases f2 with f2 | ⟨c, hc2⟩
          · exact Or.inl f2
          · refine Or.inr ⟨c, ?_⟩
            rw [hcur' e'.name hne']
            exact hc2

theorem create_output_ok_decomp (df : DataFrame) (cfg : Config) (ip : Bool)
    (out0 : DataFrame) (h : (create_output_dataframe df cfg ip).1 = .ok out0) :
    ∃ w' sorted' dfFin,
      createOutputLoop ip df (if ip then df else []) [] cfg.metadata
        = (.ok (w', sorted'), dfFin)
      ∧ selectCols w' sorted' = some out0 := by
  unfold create_output_dataframe at h
  cases hl : createOutputLoop ip df (if ip then df else []) [] cfg.metadata with
  | mk fst dfFin =>
    cases fst with
    | error e => rw [hl] at h; simp at h
    | ok p =>
      obtain ⟨w', sorted'⟩ := p
      rw [hl] at h
      cases hsel : selectCols w' sorted' with
      | none => simp [hsel] at h
      | some out =>
        simp only [hsel] at h
        simp only [Except.ok.injEq] at h
        subst h
        exact ⟨w', sorted', dfFin, rfl, hsel⟩

theorem create_output_err_of_loop (df : DataFrame) (cfg : Config) (ip : Bool)
    (e : Err)
    (h : (createOutputLoop ip df (if ip then df else []) [] cfg.metadata).1
      = .error e) :
    (create_output_dataframe df cfg ip).1 = .error e := by
  unfold create_output_dataframe
  cases hl : createOutputLoop ip df (if ip then df else []) [] cfg.metadata with
  | mk fst dfFin =>
    rw [hl] at h
    simp only at h
    cases fst with
    | error e' => cases h; rfl
    | ok p => cases h

theorem anonymize_ok_decomp (prim : Prim) (df : DataFrame) (cfg : Config)
    (ip : Bool) (out : DataFrame)
    (h : (anonymize_dataframe prim df cfg ip).1 = .ok out) :
    ∃ out0 out1, (create_output_dataframe df cfg ip).1 = .ok out0 ∧
      anonymizeColumnsLoop prim cfg.metadata out0 = .ok out1 ∧
      applyCorrelationLoop prim (parse_noise_correlation_config cfg) out1
        = .ok out := by
  unfold anonymize_dataframe at h
  cases hc : create_output_dataframe df cfg ip with
  | mk fst dfFin =>
    cases fst with
    | error e => rw [hc] at h; simp at h
    | ok out0 =>
      rw [hc] at h
      simp only at h
      cases h1 : anonymizeColumnsLoop prim cfg.metadata out0 with
      | error e => rw [h1] at h; simp at h
      | ok out1 =>
        rw [h1] at h
        simp only at h
        cases h2 : applyCorrelationLoop prim
            (parse_noise_correlation_config cfg) out1 with
        | error e => rw [h2] at h; simp at h
        | ok out2 =>
          rw [h2] at h
          simp only at h
          cases h
          exact ⟨out0, out1, by simp [hc], h1, h2⟩

theorem anonymize_err_create (prim : Prim) (df : DataFrame) (cfg : Config)
    (ip : Bool) (e : Err)
    (h : (create_output_dataframe df cfg ip).1 = .error e) :
    (anonymize_dataframe prim df cfg ip).1 = .error e := by
  unfold anonymize_dataframe
  cases hc : create_output_dataframe df cfg ip with
  | mk fst dfFin =>
    rw [hc] at h
    simp only at h
    cases fst with
    | error e' => cases h; rfl
    | ok out0 => cases h

theorem anonymize_snd_eq (prim : Prim) (df : DataFrame) (cfg : Config) (ip : Bool) :
    (anonymize_dataframe prim df cfg ip).2 = (create_output_dataframe df cfg ip).2 := by
  unfold anonymize_dataframe
  cases hc : create_output_dataframe df cfg ip with
  | mk fst dfFin =>
    cases fst with
    | error e => rfl
    | ok out0 =>
      cases h1 : anonymizeColumnsLoop prim cfg.metadata out0 with
      | error e => simp [h1]
      | ok out1 =>
        simp only [h1]
        cases h2 : applyCorrelationLoop prim
            (parse_noise_correlation_config cfg) out1 with
        | error e => simp [h2]
        | ok out2 => simp [h2]

theorem create_output_snd_eq (df : DataFrame) (cfg : Config) (ip : Bool) :
    (create_output_dataframe df cfg ip).2
      = (createOutputLoop ip df (if ip then df else []) [] cfg.metadata).2 := by
  unfold create_output_dataframe
  cases hl : createOutputLoop ip df (if ip then df else []) [] cfg.metadata with
  | mk fst dfFin =>
    cases fst with
    | error e => rfl
    | ok p =>
      obtain ⟨w', sorted'⟩ := p
      cases hsel : selectCols w' sorted' with
      | none => simp [hsel]
      | some out => simp [hsel]

/-! ### Characterization of `parse_noise_correlation_config` -/

theorem lookupTask_modify_self :
    ∀ (ts : List (OptVal × NoiseCorrelationTask)) (uid : OptVal)
      (f : NoiseCorrelationTask → NoiseCorrelationTask),
      lookupTask (modifyTask ts uid f) uid = (lookupTask ts uid).map f := by
  intro ts
  induction ts with
  | nil => intro uid f; rfl
  | cons p rest ih =>
    intro uid f
    obtain ⟨k, t⟩ := p
    by_cases hk : k = uid
    · simp [modifyTask, lookupTask, hk]
    · simp [modifyTask, lookupTask, hk, ih]

theorem lookupTask_modify_ne :
    ∀ (ts : List (OptVal × NoiseCorrelationTask)) (k uid : OptVal)
      (f : NoiseCorrelationTask → NoiseCorrelationTask), uid ≠ k →
      lookupTask (modifyTask ts k f) uid = lookupTask ts uid := by
  intro ts
  induction ts with
  | nil => intro k uid f _; rfl
  | cons p rest ih =>
    intro k uid f hne
    obtain ⟨k', t⟩ := p
    simp only [modifyTask]
    by_cases hk : k' = k
    · rw [if_pos hk]
      have hku : ¬ (k' = uid) := by
        rw [hk]
        exact fun e => hne e.symm
      simp only [lookupTask, if_neg hku]
    · rw [if_neg hk]
      simp only [lookupTask]
      by_cases hk2 : k' = uid
      · rw [if_pos hk2, if_pos hk2]
      · rw [if_neg hk2, if_neg hk2, ih _ _ f hne]

theorem lookupTask_append :
    ∀ (ts : List (OptVal × NoiseCorrelationTask)) (uid k : OptVal)
      (t : NoiseCorrelationTask),
      lookupTask (ts ++ [(k, t)]) uid
        = match lookupTask ts uid with
          | some x => some x
          | none => if k = uid then some t else none := by
  intro ts
  induction ts with
  | nil => intro uid k t; rfl
  | cons p rest ih =>
    intro uid k t
    obtain ⟨k', t'⟩ := p
    by_cases hk : k' = uid
    · simp [lookupTask, hk]
    · simp [lookupTask, hk, ih]

theorem keysT_modify (ts : List (OptVal × NoiseCorrelationTask)) (k : OptVal)
    (f : NoiseCorrelationTask → NoiseCorrelationTask) :
    keysT (modifyTask ts k f) = keysT ts := by
  induction ts with
  | nil => rfl
  | cons p rest ih =>
    obtain ⟨k', t⟩ := p
    simp only [modifyTask]
    by_cases hk : k' = k
    · rw [if_pos hk]; rfl
    · rw [if_neg hk]
      show k' :: keysT (modifyTask rest k f) = k' :: keysT rest
      rw [ih]

theorem mem_keysT_iff (ts : List (OptVal × NoiseCorrelationTask)) (uid : OptVal) :
    uid ∈ keysT ts ↔ (lookupTask ts uid).isSome := by
  induction ts with
  | nil => simp [keysT, lookupTask]
  | cons p rest ih =>
    obtain ⟨k, t⟩ := p
    by_cases hk : k = uid
    · simp [keysT, lookupTask, hk]
    · simp only [keysT, lookupTask, List.map_cons, List.mem_cons, if_neg hk]
      constructor
      · intro hh
        rcases hh with hh | hh
        · exact absurd hh.symm hk
        · exact ih.mp hh
      · intro hh
        exact Or.inr (ih.mpr hh)

theorem lookupTask_of_mem_nodup :
    ∀ (ts : List (OptVal × NoiseCorrelationTask)),
      (keysT ts).Nodup → ∀ p ∈ ts, lookupTask ts p.1 = some p.2 := by
  intro ts
  induction ts with
  | nil => intro _ p hp; simp at hp
  | cons q rest ih =>
    intro hnd p hp
    obtain ⟨k, t⟩ := q
    have hpair := List.nodup_cons.mp (show (k :: keysT rest).Nodup from hnd)
    rcases List.mem_cons.mp hp with hp | hp
    · subst hp
      simp [lookupTask]
    · by_cases hk : k = p.1
      · exfalso
        apply hpair.1
        rw [hk]
        exact (mem_keysT_iff rest p.1).mpr
          (by rw [ih hpair.2 p hp]; rfl)
      · simp only [lookupTask, if_neg hk]
        exact ih hpair.2 p hp

theorem keysT_append (ts : List (OptVal × NoiseCorrelationTask)) (k : OptVal)
    (t : NoiseCorrelationTask) : keysT (ts ++ [(k, t)]) = keysT ts ++ [k] := by
  simp [keysT]

theorem parseAux_keysT_nodup :
    ∀ (ms : List Descriptor) (tasks : List (OptVal × NoiseCorrelationTask)),
      (keysT tasks).Nodup → (keysT (parseNoiseCorrelationAux tasks ms)).Nodup := by
  intro ms
  induction ms with
  | nil => intro tasks h; exact h
  | cons d rest ih =>
    intro tasks h
    simp only [parseNoiseCorrelationAux]
    cases hmeth : d.method with
    | none => exact ih tasks h
    | some m =>
      cases hopts : d.method_options with
      | none => exact ih tasks h
      | some opts =>
        cases hcorr : lookupOpt opts "correlation" with
        | none =>
          simp only [hcorr]
          exact ih tasks h
        | some uid =>
          simp only [hcorr]
          apply ih
          rw [keysT_modify]
          by_cases hht : hasTask tasks uid
          · rw [if_pos hht]; exact h
          · rw [if_neg hht, keysT_append]
            have huid : uid ∉ keysT tasks := by
              intro hmem
              exact hht (by
                rw [hasTask]
                exact (mem_keysT_iff tasks uid).mp hmem)
            simp [List.nodup_append, h, huid]

theorem corrMatches_true_iff (uid : OptVal) (d : Descriptor) :
    corrMatches uid d = true ↔ corrKeyOf d = some uid := by
  unfold corrMatches
  split
  · next h => simp [h]
  · next h => simp [h]

theorem corrKeyOf_some (d : Descriptor) (uid : OptVal) (h : corrKeyOf d = some uid) :
    ∃ m opts, d.method = some m ∧ d.method_options = some opts ∧
      lookupOpt opts "correlation" = some uid := by
  unfold corrKeyOf at h
  cases hm : d.method with
  | none => rw [hm] at h; cases h
  | some m =>
    cases ho : d.method_options with
    | none => rw [hm, ho] at h; cases h
    | some opts =>
      rw [hm, ho] at h
      exact ⟨m, opts, rfl, rfl, h⟩

theorem firstCorrDescr_mem (uid : OptVal) (ms : List Descriptor) (d : Descriptor)
    (h : firstCorrDescr uid ms = some d) :
    d ∈ ms ∧ corrMatches uid d = true :=
  ⟨List.mem_of_find?_eq_some h, List.find?_some h⟩

theorem groupMembers_mem (uid : OptVal) (ms : List Descriptor) (n : String)
    (h : n ∈ groupMembers uid ms) :
    ∃ d ∈ ms, d.name = n ∧ corrMatches uid d = true := by
  unfold groupMembers at h
  rcases List.mem_map.mp h with ⟨d, hd, hname⟩
  exact ⟨d, List.mem_of_mem_filter hd, hname, List.of_mem_filter hd⟩

theorem parseAux_lookup :
    ∀ (ms : List Descriptor) (tasks : List (OptVal × NoiseCorrelationTask))
      (uid : OptVal),
      lookupTask (parseNoiseCorrelationAux tasks ms) uid
        = match lookupTask tasks uid with
          | some t =>
              some { t with column_names := t.column_names ++ groupMembers uid ms }
          | none =>
            match firstCorrDescr uid ms with
            | none => none
            | some d =>
                some ⟨d.method.getD "", stripReserved (d.method_options.getD []),
                  groupMembers uid ms⟩ := by
  intro ms
  induction ms with
  | nil =>
    intro tasks uid
    simp only [parseNoiseCorrelationAux]
    cases hl : lookupTask tasks uid with
    | none => simp [firstCorrDescr]
    | some t => simp [groupMembers]
  | cons d rest ih =>
    intro tasks uid
    simp only [parseNoiseCorrelationAux]
    cases hmeth : d.method with
    | none =>
      have hck : corrKeyOf d = none := by simp [corrKeyOf, hmeth]
      have hcm : corrMatches uid d = false := by simp [corrMatches, hck]
      have h1 : groupMembers uid (d :: rest) = groupMembers uid rest := by
        simp [groupMembers, List.filter_cons, hcm]
      have h2 : firstCorrDescr uid (d :: rest) = firstCorrDescr uid rest := by
        simp [firstCorrDescr, List.find?_cons, hcm]
      rw [h1, h2]
      exact ih tasks uid
    | some m =>
      cases hopts : d.method_options with
      | none =>
        have hck : corrKeyOf d = none := by simp [corrKeyOf, hmeth, hopts]
        have hcm : corrMatches uid d = false := by simp [corrMatches, hck]
        have h1 : groupMembers uid (d :: rest) = groupMembers uid rest := by
          simp [groupMembers, List.filter_cons, hcm]
        have h2 : firstCorrDescr uid (d :: rest) = firstCorrDescr uid rest := by
          simp [firstCorrDescr, List.find?_cons, hcm]
        rw [h1, h2]
        exact ih tasks uid
      | some opts =>
        cases hcorr : lookupOpt opts "correlation" with
        | none =>
          have hck : corrKeyOf d = none := by simp [corrKeyOf, hmeth, hopts, hcorr]
          have hcm : corrMatches uid d = false := by simp [corrMatches, hck]
          have h1 : groupMembers uid (d :: rest) = groupMembers uid rest := by
            simp [groupMembers, List.filter_cons, hcm]
          have h2 : firstCorrDescr uid (d :: rest) = firstCorrDescr uid rest := by
            simp [firstCorrDescr, List.find?_cons, hcm]
          rw [h1, h2]
          simp only [hcorr]
          exact ih tasks uid
        | some uid' =>
          have hck : corrKeyOf d = some uid' := by
            simp [corrKeyOf, hmeth, hopts, hcorr]
          simp only [hcorr]
          rw [ih]
          by_cases huid : uid' = uid
          · subst huid
            have hcm : corrMatches uid' d = true := by simp [corrMatches, hck]
            have h1 : groupMembers uid' (d :: rest)
                = d.name :: groupMembers uid' rest := by
              simp [groupMembers, List.filter_cons, hcm]
            have h2 : firstCorrDescr uid' (d :: rest) = some d := by
              simp [firstCorrDescr, List.find?_cons, hcm]
            rw [h1, h2]
            cases hlt : lookupTask tasks uid' with
            | some t =>
              have hht : hasTask tasks uid' = true := by simp [hasTask, hlt]
              rw [if_pos hht, lookupTask_modify_self, hlt]
              simp [NoiseCorrelationTask.add_column]
            | none =>
              have hht : ¬ (hasTask tasks uid' = true) := by simp [hasTask, hlt]
              rw [if_neg hht, lookupTask_modify_self, lookupTask_append, hlt]
              simp [NoiseCorrelationTask.init, NoiseCorrelationTask.add_column,
                hmeth, hopts, stripReserved]
          · have hcm : corrMatches uid d = false := by
              simp only [corrMatches, hck]
              split
              · next h => exact absurd (Option.some.inj h) huid
              · rfl
            have h1 : groupMembers uid (d :: rest) = groupMembers uid rest := by
              simp [groupMembers, List.filter_cons, hcm]
            have h2 : firstCorrDescr uid (d :: rest) = firstCorrDescr uid rest := by
              simp [firstCorrDescr, List.find?_cons, hcm]
            rw [h1, h2]
            rw [lookupTask_modify_ne _ _ _ _ (fun e => huid e.symm)]
            by_cases hht : hasTask tasks uid'
            · rw [if_pos hht]
            · rw [if_neg hht, lookupTask_append]
              cases hlt : lookupTask tasks uid with
              | some t => simp [hlt]
              | none => simp [hlt, huid]

theorem parse_noise_correlation_spec (cfg : Config) (uid : OptVal)
    (t : NoiseCorrelationTask) :
    lookupTask (parse_noise_correlation_config cfg) uid = some t ↔
      ∃ d, firstCorrDescr uid cfg.metadata = some d ∧
        d.method = some t.method ∧
        t.options = stripReserved (d.method_options.getD []) ∧
        t.column_names = groupMembers uid cfg.metadata := by
  unfold parse_noise_correlation_config
  rw [parseAux_lookup]
  show (match firstCorrDescr uid cfg.metadata with
    | none => none
    | some d => some (⟨d.method.getD "", stripReserved (d.method_options.getD []),
        groupMembers uid cfg.metadata⟩ : NoiseCorrelationTask)) = some t ↔ _
  cases hf : firstCorrDescr uid cfg.metadata with
  | none =>
    simp
  | some d =>
    have hmatch := (firstCorrDescr_mem uid cfg.metadata d hf).2
    rcases corrKeyOf_some d uid ((corrMatches_true_iff uid d).mp hmatch)
      with ⟨m, opts, hm, ho, _⟩
    constructor
    · intro h
      have ht := Option.some.inj h
      refine ⟨d, rfl, ?_, ?_, ?_⟩
      · rw [← ht]
        simp [hm]
      · rw [← ht]
      · rw [← ht]
    · rintro ⟨d', hd', hmeth', hopt', hcols'⟩
      cases Option.some.inj hd'
      show some (⟨d.method.getD "", stripReserved (d.method_options.getD []),
        groupMembers uid cfg.metadata⟩ : NoiseCorrelationTask) = some t
      have hgd : d.method.getD "" = t.method := by rw [hmeth']; rfl
      rw [hgd, ← hopt', ← hcols']

theorem name_unique (ms : List Descriptor)
    (hnd : (ms.map Descriptor.name).Nodup) (d1 d2 : Descriptor)
    (h1 : d1 ∈ ms) (h2 : d2 ∈ ms) (he : d1.name = d2.name) : d1 = d2 :=
  List.inj_on_of_nodup_map hnd h1 h2 he

theorem find_name_of_mem :
    ∀ (ms : List Descriptor), (ms.map Descriptor.name).Nodup →
      ∀ d ∈ ms, ms.find? (fun x => x.name == d.name) = some d := by
  intro ms
  induction ms with
  | nil => intro _ d hd; simp at hd
  | cons e rest ih =>
    intro hnd d hd
    have hpair := List.nodup_cons.mp
      (show (e.name :: rest.map Descriptor.name).Nodup from hnd)
    by_cases hbe : e.name = d.name
    · have : e = d := name_unique (e :: rest) hnd e d (by simp) hd hbe
      subst this
      simp [List.find?_cons]
    · have hdr : d ∈ rest := by
        rcases List.mem_cons.mp hd with h | h
        · exact absurd (h ▸ rfl) hbe
        · exact h
      have hbne : (fun x => x.name == d.name) e = false := by
        simp [hbe]
      rw [List.find?_cons_of_neg _ (by simp [hbe])]
      exact ih hpair.2 d hdr

theorem parse_mem_spec (cfg : Config) (p : OptVal × NoiseCorrelationTask)
    (hp : p ∈ parse_noise_correlation_config cfg) :
    ∃ d, firstCorrDescr p.1 cfg.metadata = some d ∧
      d.method = some p.2.method ∧
      p.2.options = stripReserved (d.method_options.getD []) ∧
      p.2.column_names = groupMembers p.1 cfg.metadata := by
  have hnodup : (keysT (parse_noise_correlation_config cfg)).Nodup :=
    parseAux_keysT_nodup cfg.metadata [] (by simp [keysT])
  have hl := lookupTask_of_mem_nodup _ hnodup p hp
  exact (parse_noise_correlation_spec cfg p.1 p.2).mp hl

theorem groupMembers_nodup (uid : OptVal) (ms : List Descriptor)
    (hnd : (ms.map Descriptor.name).Nodup) : (groupMembers uid ms).Nodup := by
  unfold groupMembers
  exact hnd.sublist (List.Sublist.map Descriptor.name (List.filter_sublist ms))

theorem parse_members_nodup (cfg : Config)
    (hnd : (cfg.metadata.map Descriptor.name).Nodup) :
    ∀ p ∈ parse_noise_correlation_config cfg, p.2.column_names.Nodup := by
  intro p hp
  rcases parse_mem_spec cfg p hp with ⟨d, _, _, _, hcols⟩
  rw [hcols]
  exact groupMembers_nodup p.1 cfg.metadata hnd

theorem parse_members_pairwise (cfg : Config)
    (hnd : (cfg.metadata.map Descriptor.name).Nodup) :
    List.Pairwise (fun p q => ∀ n, n ∈ p.2.column_names → n ∉ q.2.column_names)
      (parse_noise_correlation_config cfg) := by
  have hkeys : (keysT (parse_noise_correlation_config cfg)).Nodup :=
    parseAux_keysT_nodup cfg.metadata [] (by simp [keysT])
  have hpw : List.Pairwise (fun p q : OptVal × NoiseCorrelationTask => p.1 ≠ q.1)
      (parse_noise_correlation_config cfg) := by
    have := (List.pairwise_map).mp hkeys
    exact this
  refine List.Pairwise.imp_of_mem ?_ hpw
  intro p q hp hq hne n hnp hnq
  rcases parse_mem_spec cfg p hp with ⟨dp, _, _, _, hcolsp⟩
  rcases parse_mem_spec cfg q hq with ⟨dq, _, _, _, hcolsq⟩
  rw [hcolsp] at hnp
  rw [hcolsq] at hnq
  rcases groupMembers_mem p.1 cfg.metadata n hnp with ⟨d1, hd1, hn1, hm1⟩
  rcases groupMembers_mem q.1 cfg.metadata n hnq with ⟨d2, hd2, hn2, hm2⟩
  have : d1 = d2 := name_unique cfg.metadata hnd d1 d2 hd1 hd2 (hn1.trans hn2.symm)
  subst this
  rw [corrMatches_true_iff] at hm1 hm2
  rw [hm1] at hm2
  exact hne (Option.some.inj hm2)

theorem anonymizeColumnsLoop_ok_spec (prim : Prim) :
    ∀ (ms : List Descriptor) (w w' : DataFrame),
      (ms.map Descriptor.name).Nodup →
      anonymizeColumnsLoop prim ms w = .ok w' →
      (∀ d ∈ ms,
        (getCol w d.name = none → getCol w' d.name = none) ∧
        (∀ col, getCol w d.name = some col →
          ∃ res, apply_anonymization_column prim d.name col d.method
              (d.method_options.getD []) = .ok res ∧
            getCol w' d.name = some res))
      ∧ (∀ n, n ∉ ms.map Descriptor.name → getCol w' n = getCol w n) := by
  intro ms
  induction ms with
  | nil =>
    intro w w' _ h
    simp only [anonymizeColumnsLoop, Except.ok.injEq] at h
    subst h
    exact ⟨fun d hd => by simp at hd, fun n _ => rfl⟩
  | cons d rest ih =>
    intro w w' hnd h
    have hpair := List.nodup_cons.mp
      (show (d.name :: rest.map Descriptor.name).Nodup from hnd)
    simp only [anonymizeColumnsLoop] at h
    cases hg : getCol w d.name with
    | none =>
      simp only [hg] at h
      obtain ⟨IH1, IH2⟩ := ih w w' hpair.2 h
      constructor
      · intro d' hd'
        rcases List.mem_cons.mp hd' with hd' | hd'
        · subst hd'
          refine ⟨fun _ => ?_, fun col hcol => ?_⟩
          · rw [IH2 d'.name hpair.1, hg]
          · rw [hg] at hcol; cases hcol
        · exact IH1 d' hd'
      · intro n hn
        exact IH2 n (fun hmem => hn (by simp [hmem]))
    | some col =>
      simp only [hg] at h
      cases ha : apply_anonymization_column prim d.name col d.method
          (d.method_options.getD []) with
      | error e => simp [ha] at h
      | ok res =>
        simp only [ha] at h
        obtain ⟨IH1, IH2⟩ := ih _ w' hpair.2 h
        constructor
        · intro d' hd'
          rcases List.mem_cons.mp hd' with hd' | hd'
          · subst hd'
            refine ⟨fun habs => ?_, fun col' hcol' => ?_⟩
            · rw [hg] at habs; cases habs
            · rw [hg] at hcol'
              cases Option.some.inj hcol'
              refine ⟨res, ha, ?_⟩
              rw [IH2 d'.name hpair.1, getCol_setCol_self]
          · have hne : d'.name ≠ d.name := by
              intro heq
              exact hpair.1 (heq ▸ (List.mem_map.mpr ⟨d', hd', rfl⟩))
            obtain ⟨f1, f2⟩ := IH1 d' hd'
            rw [getCol_setCol_ne w d.name d'.name res hne] at f1 f2
            exact ⟨f1, f2⟩
        · intro n hn
          have hn1 : n ∉ rest.map Descriptor.name := fun hmem => hn (by simp [hmem])
          have hn2 : n ≠ d.name := fun heq => hn (by simp [heq])
          rw [IH2 n hn1]
          exact getCol_setCol_ne w d.name n res hn2

theorem applyCorrelationLoop_ok_spec (prim : Prim) :
    ∀ (tasks : List (OptVal × NoiseCorrelationTask)) (w w' : DataFrame),
      List.Pairwise (fun p q => ∀ n, n ∈ p.2.column_names → n ∉ q.2.column_names)
        tasks →
      (∀ p ∈ tasks, p.2.column_names.Nodup) →
      applyCorrelationLoop prim tasks w = .ok w' →
      (∀ p ∈ tasks, ∃ cols res,
        selectValues w p.2.column_names = some cols ∧
        apply_correlation_columns prim (rowsOf cols) p.2 = .ok res ∧
        ∀ j, j < p.2.column_names.length →
          getCol w' (p.2.column_names.getD j "") = some (colOfRows res j))
      ∧ (∀ n, (∀ p ∈ tasks, n ∉ p.2.column_names) → getCol w' n = getCol w n) := by
  intro tasks
  induction tasks with
  | nil =>
    intro w w' _ _ h
    simp only [applyCorrelationLoop, Except.ok.injEq] at h
    subst h
    exact ⟨fun p hp => by simp at hp, fun n _ => rfl⟩
  | cons p rest ih =>
    intro w w' hpw hnodup h
    obtain ⟨u, t⟩ := p
    have hpwc := List.pairwise_cons.mp hpw
    simp only [applyCorrelationLoop] at h
    cases hs : selectValues w t.column_names with
    | none => simp [hs] at h
    | some cols =>
      simp only [hs] at h
      cases ha : apply_correlation_columns prim (rowsOf cols) t with
      | error e => simp [ha] at h
      | ok result =>
        simp only [ha] at h
        cases hw₁ : setCols w t.column_names result with
        | none => simp [hw₁] at h
        | some w₁ =>
          simp only [hw₁] at h
          obtain ⟨IH1, IH2⟩ := ih w₁ w' hpwc.2
            (fun q hq => hnodup q (by simp [hq])) h
          have hw₁go : w₁ = setColsGo result w t.column_names 0 :=
            setCols_some _ _ _ _ hw₁
          have hframe₁ : ∀ n, n ∉ t.column_names → getCol w₁ n = getCol w n := by
            intro n hn
            rw [hw₁go]
            exact setColsGo_frame result t.column_names w 0 n hn
          constructor
          · intro q hq
            rcases List.mem_cons.mp hq with hq | hq
            · subst hq
              refine ⟨cols, result, hs, ha, ?_⟩
              intro j hj
              have hmemj : t.column_names.getD j "" ∈ t.column_names := by
                rw [List.getD_eq_getElem t.column_names "" hj]
                exact List.getElem_mem _
              have hnotr : ∀ q ∈ rest, t.column_names.getD j "" ∉ q.2.column_names :=
                fun q hq => hpwc.1 q hq _ hmemj
              rw [IH2 _ hnotr, hw₁go]
              rw [setColsGo_get result t.column_names w 0 j
                (hnodup (u, t) (by simp)) hj]
              rw [Nat.zero_add]
            · rcases IH1 q hq with ⟨cols', res', hs', ha', hfin'⟩
              refine ⟨cols', res', ?_, ha', hfin'⟩
              rw [← hs']
              unfold selectValues
              apply optionMapList_congr
              intro n hn
              exact (hframe₁ n (fun hmem => hpwc.1 q hq n hmem hn)).symm
          · intro n hn
            rw [IH2 n (fun q hq => hn q (by simp [hq]))]
            exact hframe₁ n (hn (u, t) (by simp))

/-! ### Helper lemmas about the noise builders and error messages -/

theorem create_noise_generator_missing (dist : OptVal) (mo so lo uo : Option OptVal)
    (hms : mo = none ∨ so = none) (hlu : lo = none ∨ uo = none) :
    create_noise_generator dist mo so lo uo = .error .missingNoiseOptions := by
  cases mo <;> cases so <;> cases lo <;> cases uo <;>
    simp_all [create_noise_generator]

theorem create_date_noise_generator_missing (dist : OptVal)
    (mo so lo uo : Option OptVal)
    (hms : mo = none ∨ so = none) (hlu : lo = none ∨ uo = none) :
    create_date_noise_generator dist mo so lo uo = .error .missingNoiseOptions := by
  cases mo <;> cases so <;> cases lo <;> cases uo <;>
    simp_all [create_date_noise_generator, pairSeconds, create_noise_generator]

theorem renderArgs_contains (args : List String) (k : String) (hk : k ∈ args) :
    containsSub k.data (renderArgs args).data = true := by
  induction args with
  | nil => simp at hk
  | cons a rest ih =>
    rcases List.mem_cons.mp hk with hk | hk
    · subst hk
      show containsSub k.data (k ++ " " ++ renderArgs rest).data = true
      have : (k ++ " " ++ renderArgs rest).data
          = k.data ++ (" " ++ renderArgs rest).data := by
        rw [String.append_assoc]
        exact String.data_append k (" " ++ renderArgs rest)
      rw [this]
      exact containsSub_self_append k.data _
    · show containsSub k.data (a ++ " " ++ renderArgs rest).data = true
      have : (a ++ " " ++ renderArgs rest).data
          = (a ++ " ").data ++ (renderArgs rest).data :=
        String.data_append (a ++ " ") (renderArgs rest)
      rw [this]
      exact containsSub_append_right k.data _ _ (ih hk)

theorem missingArguments_message_contains (func : String) (args : List String)
    (k : String) (hk : k ∈ args) :
    strContains (Err.message (.missingArguments func args)) k = true := by
  show containsSub k.data
    ((func ++ "() missing required arguments: " ++ renderArgs args).data) = true
  have : (func ++ "() missing required arguments: " ++ renderArgs args).data
      = (func ++ "() missing required arguments: ").data ++ (renderArgs args).data :=
    String.data_append (func ++ "() missing required arguments: ") (renderArgs args)
  rw [this]
  exact containsSub_append_right k.data _ _ (renderArgs_contains args k hk)

/-! ### The claims -/

/-- C1: for every dataset and configuration for which `anonymize_dataframe`
returns successfully, the columns of the returned frame are exactly, and in
the same order as, the configuration's column names minus every descriptor
whose method is `DeleteColumn`; in particular a `DeleteColumn` column never
appears in the output. -/
theorem c1_output_columns (prim : Prim) (df : DataFrame) (cfg : Config)
    (ip : Bool) (out : DataFrame)
    (h : (anonymize_dataframe prim df cfg ip).1 = .ok out) :
    keys out = (cfg.metadata.filter (fun d => !(isDelete d))).map Descriptor.name := by
  rcases anonymize_ok_decomp prim df cfg ip out h with ⟨out0, out1, hc, h1, h2⟩
  rcases create_output_ok_decomp df cfg ip out0 hc with
    ⟨w', sorted', dfFin, hloop, hsel⟩
  have hsorted := createOutputLoop_sorted ip cfg.metadata df _ [] w' sorted' dfFin hloop
  rw [List.nil_append] at hsorted
  rw [applyCorrelationLoop_keys prim _ _ _ h2,
    anonymizeColumnsLoop_keys prim _ _ _ h1,
    selectCols_keys w' sorted' out0 hsel, hsorted]

/-- C1 witness: on a concrete frame and configuration with a deleted
column, the output columns are exactly the non-deleted configured names in
order. -/
theorem c1_witness :
    keys [("a", [Val.int 1, Val.int 2]), ("c", [Val.int 5, Val.int 6])]
      = (cfgA.metadata.filter (fun d => !(isDelete d))).map Descriptor.name :=
  c1_output_columns primId dfA cfgA false
    [("a", [Val.int 1, Val.int 2]), ("c", [Val.int 5, Val.int 6])] (by rfl)

/-- C5: calling `anonymize_dataframe` with `inplace = false` leaves the
caller's input frame unchanged after the call, whether the call succeeds or
fails. -/
theorem c5_input_untouched (prim : Prim) (df : DataFrame) (cfg : Config) :
    (anonymize_dataframe prim df cfg false).2 = df := by
  rw [anonymize_snd_eq, create_output_snd_eq]
  exact createOutputLoop_snd_notinplace cfg.metadata df _ []

/-- C9: every successful call preserves the row count — if every input
column has `nn` values, every output column has `nn` values. -/
theorem c9_row_count (prim : Prim) (df : DataFrame) (cfg : Config) (ip : Bool)
    (out : DataFrame) (nn : Nat)
    (hdf : ∀ p ∈ df, p.2.length = nn)
    (h : (anonymize_dataframe prim df cfg ip).1 = .ok out) :
    ∀ p ∈ out, p.2.length = nn := by
  rcases anonymize_ok_decomp prim df cfg ip out h with ⟨out0, out1, hc, h1, h2⟩
  rcases create_output_ok_decomp df cfg ip out0 hc with
    ⟨w', sorted', dfFin, hloop, hsel⟩
  have hw0 : ∀ p ∈ (if ip then df else ([] : DataFrame)), p.2.length = nn := by
    split
    · exact hdf
    · intro p hp; simp at hp
  have hw' := createOutputLoop_preserves ip nn cfg.metadata df _ [] w' sorted' dfFin
    hdf hw0 hloop
  have hout0 : ∀ p ∈ out0, p.2.length = nn := by
    intro p hp
    rcases optionMapList_mem _ _ _ hsel p hp with ⟨n, hn, hsome⟩
    cases hg : getCol w' n with
    | none => rw [hg] at hsome; cases hsome
    | some c =>
      rw [hg] at hsome
      cases hsome
      exact getCol_of_invariant (fun c => c.length = nn) w' hw' n c hg
  have hout1 := anonymizeColumnsLoop_preserves prim nn cfg.metadata out0 out1 hout0 h1
  exact applyCorrelationLoop_preserves prim nn _ out1 out hout1 h2

/-- C9 witness: a concrete two-row frame keeps two rows in the first output
column. -/
theorem c9_witness :
    (Prod.snd ("a", [Val.int 1, Val.int 2])).length = 2 :=
  c9_row_count primId dfA cfgA false
    [("a", [Val.int 1, Val.int 2]), ("c", [Val.int 5, Val.int 6])] 2
    (by decide) (by rfl) ("a", [Val.int 1, Val.int 2]) (by decide)

/-- C2 counterexample: `cfgX` names a column `b` absent from `dfX`, yet the
call raises the type-conversion error for the earlier column `a`, not
`MissingColumnError` — the claim as stated fails. -/
theorem c2_counterexample :
    (∃ d ∈ cfgX.metadata, hasCol dfX d.name = false)
    ∧ (anonymize_dataframe primId dfX cfgX false).1
        = .error (.conversionError "a" "Integer")
    ∧ ∀ c, (anonymize_dataframe primId dfX cfgX false).1
        ≠ .error (.missingColumn c) := by
  refine ⟨⟨⟨"b", "Text", none, none⟩, by simp [cfgX], by decide⟩, by rfl, ?_⟩
  intro c hc
  rw [(by rfl : (anonymize_dataframe primId dfX cfgX false).1
    = .error (.conversionError "a" "Integer"))] at hc
  exact Err.noConfusion (Except.error.inj hc)

/-- C2 (amended): when the descriptors before the missing column all name
existing columns and (unless deleted) convert successfully, the call raises
`MissingColumnError` for the missing column; the error already arises in
`create_output_dataframe`, before any anonymization transform, and holds
for every primitive oracle. -/
theorem c2_missing_column (prim : Prim) (df : DataFrame) (cfg : Config) (ip : Bool)
    (pre : List Descriptor) (d : Descriptor) (post : List Descriptor)
    (hsplit : cfg.metadata = pre ++ d :: post)
    (hnd : (pre.map Descriptor.name).Nodup)
    (hmiss : hasCol df d.name = false)
    (hpre : ∀ e ∈ pre, hasCol df e.name = true ∧
      (isDelete e = true ∨
        ∃ conv, convert_config_types e.name ((getCol df e.name).getD []) e.type
          = .ok conv)) :
    (create_output_dataframe df cfg ip).1 = .error (.missingColumn d.name)
    ∧ (anonymize_dataframe prim df cfg ip).1 = .error (.missingColumn d.name) := by
  have halias : ip = true → (if ip then df else []) = df := by
    intro hip
    rw [if_pos hip]
  have hloop := createOutputLoop_missing ip pre df (if ip then df else []) [] d post
    halias hnd hmiss hpre
  rw [← hsplit] at hloop
  have hcre := create_output_err_of_loop df cfg ip _ hloop
  exact ⟨hcre, anonymize_err_create prim df cfg ip _ hcre⟩

/-- C2 witness: a concrete configuration whose second column is missing
raises `MissingColumnError` for it. -/
theorem c2_witness :
    (create_output_dataframe dfY cfgY false).1 = .error (.missingColumn "b")
    ∧ (anonymize_dataframe primId dfY cfgY false).1
        = .error (.missingColumn "b") :=
  c2_missing_column primId dfY cfgY false [⟨"a", "Integer", none, none⟩]
    ⟨"b", "Text", none, none⟩ [] rfl (by decide) (by decide)
    (by
      intro e he
      have he' : e = ⟨"a", "Integer", none, none⟩ := by simpa [cfgY] using he
      subst he'
      exact ⟨by decide, Or.inr ⟨[Val.int 1], by rfl⟩⟩)

/-- C4: the correlation grouper builds exactly one group per correlation id
occurring with a method: the group's method and (reserved-key-stripped)
options come from the first descriptor carrying the id, and its member
columns are the names of all descriptors carrying the id, in configuration
order; descriptors without a method, options, or `correlation` key are in
no group. -/
theorem c4_correlation_grouping (cfg : Config) (uid : OptVal)
    (t : NoiseCorrelationTask) :
    lookupTask (parse_noise_correlation_config cfg) uid = some t ↔
      ∃ d, firstCorrDescr uid cfg.metadata = some d ∧
        d.method = some t.method ∧
        t.options = stripReserved (d.method_options.getD []) ∧
        t.column_names = groupMembers uid cfg.metadata :=
  parse_noise_correlation_spec cfg uid t

/-- C8: `create_noise_generator` gives the `(mean, std_dev)` parameter form
precedence — the boundary arguments are ignored whenever the pair is
complete — and raises the missing-options error exactly when neither the
parameter pair nor the boundary pair is complete. -/
theorem c8_noise_options_precedence :
    (∀ (dist m s : OptVal) (lo uo : Option OptVal),
        create_noise_generator dist (some m) (some s) lo uo
          = .ok (.withParameters dist m s))
    ∧ (∀ (dist : OptVal) (mo so lo uo : Option OptVal),
        create_noise_generator dist mo so lo uo = .error .missingNoiseOptions ↔
          ((mo = none ∨ so = none) ∧ (lo = none ∨ uo = none))) := by
  constructor
  · intro dist m s lo uo
    rfl
  · intro dist mo so lo uo
    constructor
    · intro he
      cases mo <;> cases so <;> cases lo <;> cases uo <;>
        simp_all [create_noise_generator]
    · intro ⟨hms, hlu⟩
      exact create_noise_generator_missing dist mo so lo uo hms hlu

/-- C10: the duration table is Second=1, Minute=60, Hour=3600, Day=86400,
Month=2628000, Year=31536000, and `create_date_noise_generator` passes each
option to the noise primitive as `precision * unit-constant` seconds, for
both the parameter form and the boundary form. -/
theorem c10_date_noise_seconds :
    (DURATION_IN_SECONDS "Second" = some 1 ∧ DURATION_IN_SECONDS "Minute" = some 60
      ∧ DURATION_IN_SECONDS "Hour" = some 3600
      ∧ DURATION_IN_SECONDS "Day" = some 86400
      ∧ DURATION_IN_SECONDS "Month" = some 2628000
      ∧ DURATION_IN_SECONDS "Year" = some 31536000)
    ∧ (∀ (dist : OptVal) (mp sp : Int) (mu su : String) (k1 k2 : Int),
        DURATION_IN_SECONDS mu = some k1 → DURATION_IN_SECONDS su = some k2 →
        create_date_noise_generator dist (some (.timeAmount mp mu))
            (some (.timeAmount sp su)) none none
          = .ok (.withParameters dist (.num (mp * k1)) (.num (sp * k2))))
    ∧ (∀ (dist : OptVal) (lp up : Int) (lu uu : String) (k1 k2 : Int),
        DURATION_IN_SECONDS lu = some k1 → DURATION_IN_SECONDS uu = some k2 →
        create_date_noise_generator dist none none (some (.timeAmount lp lu))
            (some (.timeAmount up uu))
          = .ok (.withBounds dist (.num (lp * k1)) (.num (up * k2)))) := by
  refine ⟨⟨rfl, rfl, rfl, rfl, rfl, rfl⟩, ?_, ?_⟩
  · intro dist mp sp mu su k1 k2 hk1 hk2
    simp [create_date_noise_generator, pairSeconds, timeAmountSeconds, hk1, hk2,
      create_noise_generator]
  · intro dist lp up lu uu k1 k2 hk1 hk2
    simp [create_date_noise_generator, pairSeconds, timeAmountSeconds, hk1, hk2,
      create_noise_generator]

/-- C6: date canonicalization is idempotent — when a date string parses,
converting the canonical result again returns the same string; in
particular an already-RFC3339 string converts to itself. -/
theorem c6_date_canonicalization_idempotent (s t : String)
    (h : date_to_rfc3339 s = some t) : date_to_rfc3339 t = some t := by
  unfold date_to_rfc3339 at h
  cases hp : dateutil_parse s with
  | none => rw [hp] at h; cases h
  | some dt =>
    rw [hp] at h
    simp only at h
    have ht : t = String.mk (isoformatChars (awareUTC dt)) := (Option.some.inj h).symm
    have hvalid : DTValid (awareUTC dt) :=
      awareUTC_valid dt (dateutil_parse_valid s dt hp)
    obtain ⟨o, ho⟩ := awareUTC_aware dt
    subst ht
    unfold date_to_rfc3339
    rw [dateutil_parse_mk_isoformat (awareUTC dt) o hvalid ho]
    simp only
    rw [awareUTC_of_aware (awareUTC dt) o ho]

/-- C6 witness: converting the canonical form of a concrete zoned
date-time string returns it unchanged. -/
theorem c6_witness :
    date_to_rfc3339 "2021-06-01T12:30:45+02:00"
      = some "2021-06-01T12:30:45+02:00" :=
  c6_date_canonicalization_idempotent "2021-06-01 12:30:45+02:00"
    "2021-06-01T12:30:45+02:00" (by rfl)

/-- C7 counterexample: resolving `NoiseInteger` with only a distribution
raises the fixed message `Missing noise options.`, which names neither the
method nor any missing option — the claim as stated fails. -/
theorem c7_counterexample :
    create_transformation_function primId "NoiseInteger"
      [("distribution", OptVal.str "Gaussian")] = .error .missingNoiseOptions
    ∧ Err.message .missingNoiseOptions = "Missing noise options."
    ∧ strContains (Err.message .missingNoiseOptions) "NoiseInteger" = false
    ∧ strContains (Err.message .missingNoiseOptions) "mean" = false
    ∧ strContains (Err.message .missingNoiseOptions) "std_dev" = false
    ∧ strContains (Err.message .missingNoiseOptions) "lower_boundary" = false
    ∧ strContains (Err.message .missingNoiseOptions) "upper_boundary" = false :=
  ⟨rfl, rfl, by decide, by decide, by decide, by decide, by decide⟩

/-- C7 (amended): for the noise methods, incomplete noise-option pairs make
the resolver fail with the fixed message `Missing noise options.`, which
names neither the method nor any option; for every registered method, a
missing required option makes the resolver fail with the keyword-binding
error that carries the builder function's name and every missing option
name (but not the configuration method name). -/
theorem c7_missing_option_errors :
    (∀ (prim : Prim) (m : String) (opts : List (String × OptVal)) (dist : OptVal),
      isNoiseMethod m = true →
      unexpectedKeys (noiseSig m)
        (opts.filter (fun kv => kv.1 != "fine_tuning")) = [] →
      lookupOpt (opts.filter (fun kv => kv.1 != "fine_tuning")) "distribution"
        = some dist →
      (lookupOpt (opts.filter (fun kv => kv.1 != "fine_tuning")) "mean" = none ∨
        lookupOpt (opts.filter (fun kv => kv.1 != "fine_tuning")) "std_dev" = none) →
      (lookupOpt (opts.filter (fun kv => kv.1 != "fine_tuning")) "lower_boundary"
          = none ∨
        lookupOpt (opts.filter (fun kv => kv.1 != "fine_tuning")) "upper_boundary"
          = none) →
      create_transformation_function prim m opts = .error .missingNoiseOptions)
    ∧ (∀ mention ∈ ["NoiseDate", "NoiseInteger", "NoiseFloat", "distribution",
        "mean", "std_dev", "lower_boundary", "upper_boundary"],
        strContains (Err.message .missingNoiseOptions) mention = false)
    ∧ (∀ (prim : Prim) (m : String) (sig : MethodSig)
        (opts : List (String × OptVal)) (k : String) (ks : List String),
      findSig parsing_function_table m = some sig →
      unexpectedKeys sig (opts.filter (fun kv => kv.1 != "fine_tuning")) = [] →
      missingRequired sig (opts.filter (fun kv => kv.1 != "fine_tuning")) = k :: ks →
      create_transformation_function prim m opts
        = .error (.missingArguments sig.func (k :: ks))
      ∧ ∀ x ∈ k :: ks,
          strContains (Err.message (.missingArguments sig.func (k :: ks))) x
            = true) := by
  refine ⟨?_, by decide, ?_⟩
  · intro prim m opts dist hnm hunexp hdist hm hb
    have hm3 : (m = "NoiseDate" ∨ m = "NoiseInteger") ∨ m = "NoiseFloat" := by
      simpa [isNoiseMethod] using hnm
    have hmr : missingRequired (noiseSig m)
        (opts.filter (fun kv => kv.1 != "fine_tuning")) = [] := by
      simp [missingRequired, noiseSig, hdist]
    rcases hm3 with (hm3 | hm3) | hm3 <;> subst hm3
    · have hfs : findSig parsing_function_table "NoiseDate"
          = some (noiseSig "NoiseDate") := rfl
      have hgen := create_date_noise_generator_missing dist
        (lookupOpt (opts.filter (fun kv => kv.1 != "fine_tuning")) "mean")
        (lookupOpt (opts.filter (fun kv => kv.1 != "fine_tuning")) "std_dev")
        (lookupOpt (opts.filter (fun kv => kv.1 != "fine_tuning")) "lower_boundary")
        (lookupOpt (opts.filter (fun kv => kv.1 != "fine_tuning")) "upper_boundary")
        hm hb
      simp [create_transformation_function, hfs, hunexp, hmr, resolveNoise,
        hdist, hgen, hnm]
    · have hfs : findSig parsing_function_table "NoiseInteger"
          = some (noiseSig "NoiseInteger") := rfl
      have hgen := create_noise_generator_missing dist
        (lookupOpt (opts.filter (fun kv => kv.1 != "fine_tuning")) "mean")
        (lookupOpt (opts.filter (fun kv => kv.1 != "fine_tuning")) "std_dev")
        (lookupOpt (opts.filter (fun kv => kv.1 != "fine_tuning")) "lower_boundary")
        (lookupOpt (opts.filter (fun kv => kv.1 != "fine_tuning")) "upper_boundary")
        hm hb
      simp [create_transformation_function, hfs, hunexp, hmr, resolveNoise,
        hdist, hgen, hnm]
    · have hfs : findSig parsing_function_table "NoiseFloat"
          = some (noiseSig "NoiseFloat") := rfl
      have hgen := create_noise_generator_missing dist
        (lookupOpt (opts.filter (fun kv => kv.1 != "fine_tuning")) "mean")
        (lookupOpt (opts.filter (fun kv => kv.1 != "fine_tuning")) "std_dev")
        (lookupOpt (opts.filter (fun kv => kv.1 != "fine_tuning")) "lower_boundary")
        (lookupOpt (opts.filter (fun kv => kv.1 != "fine_tuning")) "upper_boundary")
        hm hb
      simp [create_transformation_function, hfs, hunexp, hmr, resolveNoise,
        hdist, hgen, hnm]
  · intro prim m sig opts k ks hfs hunexp hmr
    constructor
    · simp [create_transformation_function, hfs, hunexp, hmr]
    · exact fun x hx => missingArguments_message_contains sig.func (k :: ks) x hx

/-- C3: for every invocation, either an error is surfaced to the caller and
no frame is returned, or the returned frame is fully anonymized: every
configured column was validated and converted, every independent method was
applied end-to-end, and every correlation group's members hold exactly the
group transform of their converted values. -/
theorem c3_no_partial_output (prim : Prim) (df : DataFrame) (cfg : Config)
    (ip : Bool) (hnd : (cfg.metadata.map Descriptor.name).Nodup) :
    (∃ e, (anonymize_dataframe prim df cfg ip).1 = .error e) ∨
    (∃ out, (anonymize_dataframe prim df cfg ip).1 = .ok out ∧
      FullyAnonymized prim df cfg out) := by
  cases hres : (anonymize_dataframe prim df cfg ip).1 with
  | error e => exact Or.inl ⟨e, rfl⟩
  | ok out =>
    right
    refine ⟨out, rfl, ?_⟩
    rcases anonymize_ok_decomp prim df cfg ip out hres with ⟨out0, out1, hc, h1, h2⟩
    rcases create_output_ok_decomp df cfg ip out0 hc with
      ⟨w', sorted', dfFin, hloop, hsel⟩
    have halias : ip = true → (if ip then df else []) = df := fun hip => by
      rw [if_pos hip]
    obtain ⟨S1, Sframe⟩ := createOutputLoop_ok_spec ip cfg.metadata df _ [] w'
      sorted' dfFin halias hnd hloop
    have hsorted := createOutputLoop_sorted ip cfg.metadata df _ [] w' sorted'
      dfFin hloop
    rw [List.nil_append] at hsorted
    obtain ⟨P1, Pframe⟩ := anonymizeColumnsLoop_ok_spec prim cfg.metadata out0 out1
      hnd h1
    have hpw := parse_members_pairwise cfg hnd
    have hmnd := parse_members_nodup cfg hnd
    obtain ⟨K1, Kframe⟩ := applyCorrelationLoop_ok_spec prim _ out1 out hpw hmnd h2
    have hk0 : keys out0 = sorted' := selectCols_keys w' sorted' out0 hsel
    have hk1 : keys out1 = keys out0 := anonymizeColumnsLoop_keys prim _ _ _ h1
    have hk2 : keys out = keys out1 := applyCorrelationLoop_keys prim _ _ _ h2
    have hsorted_mem : ∀ (d : Descriptor), d ∈ cfg.metadata → isDelete d = false →
        d.name ∈ sorted' := by
      intro d hd hdel
      rw [hsorted]
      exact List.mem_map.mpr ⟨d, List.mem_filter.mpr ⟨hd, by simp [hdel]⟩, rfl⟩
    have hsorted_mem' : ∀ n, n ∈ sorted' →
        ∃ d ∈ cfg.metadata, d.name = n ∧ isDelete d = false := by
      intro n hn
      rw [hsorted] at hn
      rcases List.mem_map.mp hn with ⟨d, hdf_, hname⟩
      have hmf := List.mem_filter.mp hdf_
      exact ⟨d, hmf.1, hname, by simpa using hmf.2⟩
    have hnotask : ∀ (d : Descriptor), d ∈ cfg.metadata → inCorrGroup d = false →
        ∀ p ∈ parse_noise_correlation_config cfg, d.name ∉ p.2.column_names := by
      intro d hd hic p hp hmem
      rcases parse_mem_spec cfg p hp with ⟨d0, hf0, _, _, hcols⟩
      rw [hcols] at hmem
      rcases groupMembers_mem p.1 cfg.metadata d.name hmem with ⟨d2, hd2, hn2, hm2⟩
      have hd2d : d2 = d := name_unique cfg.metadata hnd d2 d hd2 hd hn2
      subst hd2d
      rw [corrMatches_true_iff] at hm2
      simp [inCorrGroup, hm2] at hic
    constructor
    · intro d hd
      obtain ⟨hsomeDf, hconv⟩ := S1 d hd
      refine ⟨hsomeDf, ?_, ?_⟩
      · intro hdel hmem
        rw [hk2, hk1, hk0] at hmem
        rcases hsorted_mem' d.name hmem with ⟨d2, hd2, hn2, hdel2⟩
        have hd2d : d2 = d := name_unique cfg.metadata hnd d2 d hd2 hd hn2
        subst hd2d
        rw [hdel] at hdel2
        cases hdel2
      · intro hdel
        obtain ⟨conv, hcv, hwcol⟩ := hconv hdel
        refine ⟨conv, hcv, ?_⟩
        by_cases hic : inCorrGroup d
        · exact Or.inl hic
        · right
          have hmemS : d.name ∈ sorted' := hsorted_mem d hd hdel
          have hout0 : getCol out0 d.name = some conv := by
            rw [selectCols_getCol w' sorted' out0 hsel d.name hmemS]
            exact hwcol
          obtain ⟨_, f2⟩ := P1 d hd
          obtain ⟨res, happly, hout1⟩ := f2 conv hout0
          refine ⟨res, happly, ?_⟩
          rw [Kframe d.name (fun p hp => hnotask d hd (by simpa using hic) p hp)]
          exact hout1
    · intro p hp
      obtain ⟨cols, res, hsv, happ, hfin⟩ := K1 p hp
      refine ⟨cols, res, ?_, happ, hfin⟩
      rw [← hsv]
      show optionMapList (convertedColumnOf df cfg) p.2.column_names
        = optionMapList (getCol out1) p.2.column_names
      apply optionMapList_congr
      intro n hn
      rcases parse_mem_spec cfg p hp with ⟨d0, hf0, hm0, ho0, hcols0⟩
      have hnm := hn
      rw [hcols0] at hnm
      rcases groupMembers_mem p.1 cfg.metadata n hnm with ⟨d, hd, hname, hmatch⟩
      rcases corrKeyOf_some d p.1 ((corrMatches_true_iff p.1 d).mp hmatch) with
        ⟨m, opts, hmeth, hopts, hcorr⟩
      have hmemK : n ∈ sorted' := by
        have hmk := selectValues_mem_keys out1 _ cols hsv n hn
        rw [hk1, hk0] at hmk
        exact hmk
      rcases hsorted_mem' n hmemK with ⟨d2, hd2, hn2, hdel2⟩
      have hd2d : d = d2 := (name_unique cfg.metadata hnd d2 d hd2 hd
        (hn2.trans hname.symm)).symm
      subst hd2d
      obtain ⟨hsomeDf, hconv⟩ := S1 d hd
      obtain ⟨conv, hcv, hwcol⟩ := hconv hdel2
      have hmemS : d.name ∈ sorted' := hsorted_mem d hd hdel2
      have hout0 : getCol out0 d.name = some conv := by
        rw [selectCols_getCol w' sorted' out0 hsel d.name hmemS]
        exact hwcol
      obtain ⟨_, f2⟩ := P1 d hd
      obtain ⟨res', happly', hout1'⟩ := f2 conv hout0
      have hpass : apply_anonymization_column prim d.name conv d.method
          (d.method_options.getD []) = .ok conv := by
        rw [hmeth]
        apply apply_anonymization_column_corr
        rw [hopts]
        simp [hcorr]
      have hres' : res' = conv := by
        rw [hpass] at happly'
        exact (Except.ok.inj happly').symm
      rw [← hname, hout1', hres']
      unfold convertedColumnOf
      rw [show cfg.metadata.find? (fun x => x.name == d.name) = some d from
        find_name_of_mem cfg.metadata hnd d hd]
      obtain ⟨src, hsrc⟩ : ∃ src, getCol df d.name = some src := by
        cases hg : getCol df d.name with
        | none => rw [hg] at hsomeDf; cases hsomeDf
        | some c => exact ⟨c, rfl⟩
      rw [hsrc]
      rw [hsrc] at hcv
      simp only [Option.getD_some] at hcv
      simp only [hcv]

/-- C3 witness: on a concrete frame with a correlation group the call
either errors or returns a fully anonymized frame. -/
theorem c3_witness :
    (∃ e, (anonymize_dataframe primId dfB cfgB false).1 = .error e) ∨
    (∃ out, (anonymize_dataframe primId dfB cfgB false).1 = .ok out ∧
      FullyAnonymized primId dfB cfgB out) :=
  c3_no_partial_output primId dfB cfgB false (by decide)

end CosmianAnon
